import Mathlib

/-!
Shallow embedding of the pain-miner scoring and deduplication core
(src/pain_miner/scoring.py and src/pain_miner/analyzer.py), together with
theorems settling the specification claims about it.

Numeric conventions: Python floats are modelled exactly as rationals where
the computation stays rational, and as real numbers where `math.log1p`
enters; machine rounding (`round(x, 2)`, round-half-to-even) is modelled as
exact round-half-to-even on the rational/real value.
-/

/-! ## String utilities

Python's substring containment (`needle in hay`), `str.lower`, `str.split`
and the regex `[a-z0-9]+` tokenizer, modelled over `List Char`. -/

/-- Boolean test that the first character list is an initial segment of the second. -/
def isPref : List Char → List Char → Bool
  | [], _ => true
  | _ :: _, [] => false
  | a :: as, b :: bs => a == b && isPref as bs

/-- Boolean substring containment on character lists; `containsSub` lifts it
to `String`, modelling Python's `needle in hay` (the empty needle matches). -/
def isSubChars : List Char → List Char → Bool
  | p, [] => p.isEmpty
  | p, c :: s => isPref p (c :: s) || isSubChars p s

/-- Python `needle in hay` on strings. -/
def containsSub (needle hay : String) : Bool :=
  isSubChars needle.toList hay.toList

/-- ASCII lowercasing of one character (Python `str.lower` restricted to the
ASCII inputs this code path receives). -/
def charLower (c : Char) : Char :=
  if 65 ≤ c.toNat ∧ c.toNat ≤ 90 then Char.ofNat (c.toNat + 32) else c

/-- Python `str.lower()`. -/
def lowerStr (s : String) : String :=
  String.mk (s.toList.map charLower)

/-- Maximal runs of characters satisfying `p`. -/
def runsBy (p : Char → Bool) : List Char → List (List Char)
  | [] => []
  | c :: rest =>
    let rs := runsBy p rest
    if p c then
      match rest with
      | [] => [[c]]
      | d :: _ =>
        if p d then
          match rs with
          | r :: rs2 => (c :: r) :: rs2
          | [] => [[c]]
        else [c] :: rs
    else rs

/-- Character class of the regex `[a-z0-9]+` (applied to lowercased text). -/
def isTokChar (c : Char) : Bool :=
  (97 ≤ c.toNat && c.toNat ≤ 122) || (48 ≤ c.toNat && c.toNat ≤ 57)

/-- Python `re.findall("[a-z0-9]+", s)` as a list of strings. -/
def findTokens (s : String) : List String :=
  (runsBy isTokChar s.toList).map (fun l => String.mk l)

/-- Python `str.split()` (maximal whitespace-separated words). -/
def splitWs (s : String) : List String :=
  (runsBy (fun c => !c.isWhitespace) s.toList).map (fun l => String.mk l)

/-! ## Lexicons (scoring.py lines 7-20) -/

/-- Pain lexicon, verbatim from `scoring.PAIN_WORDS` (30 entries). -/
def PAIN_WORDS : List String :=
  [ "frustrat", "hate", "wish", "terrible", "awful", "slow", "expensive",
    "inconsisten", "artifact", "broken", "waste", "painful", "annoying",
    "disappoint", "useless", "garbage", "horrible", "unusable", "buggy",
    "overpriced", "scam", "misleading", "workaround", "hack", "tedious",
    "clunky", "unreliable", "laggy", "crash", "glitch" ]

/-- Demand lexicon, verbatim from `scoring.DEMAND_WORDS` (13 entries). -/
def DEMAND_WORDS : List String :=
  [ "pay for", "would pay", "need a tool", "wish there was",
    "someone should build", "is there a", "looking for",
    "alternative to", "shut up and take my money", "i'd pay",
    "take my money", "does anyone know", "am i the only one" ]

/-! ## Topic keyword extraction (scoring._extract_topic_keywords) -/

/-- Stop-word set of `_extract_topic_keywords`. -/
def stop_words : List String :=
  [ "a", "an", "the", "and", "or", "for", "of", "to", "in", "on", "with",
    "is", "are", "was", "were", "be", "been", "being", "that", "this",
    "it", "its", "my", "your", "our", "their", "what", "how", "why" ]

/-- Result shape of `_extract_topic_keywords`: the kept topic tokens (a list,
with multiplicity), the stem set (a Python `set`), and the bigram phrases. -/
structure TopicInfo where
  words : List String
  stems : Finset String
  phrases : List String
deriving DecidableEq

/-- Python: `w[:-1]`. -/
def dropLastChar (w : String) : String :=
  String.mk w.toList.dropLast

/-- Python: `w.endswith("s")`. -/
def endsInS (w : String) : Bool :=
  match w.toList.getLast? with
  | some c => c == 's'
  | none => false

/-- Embedding of `scoring._extract_topic_keywords`: lowercase-alphanumeric
tokenization, stop-word and length-2 filtering, consecutive bigram phrases,
and the naive singular/plural stem variants collected into a set. -/
def extract_topic_keywords (topic : String) : TopicInfo :=
  let raw_words := findTokens (lowerStr topic)
  let words := raw_words.filter (fun w => !(stop_words.contains w) && 2 ≤ w.length)
  let phrases := (words.zip words.tail).map (fun p => p.1 ++ " " ++ p.2)
  let stems :=
    (words.flatMap (fun w =>
      [w, if endsInS w && 3 < w.length then dropLastChar w else w ++ "s"])).toFinset
  { words := words, stems := stems, phrases := phrases }

/-! ## Topic relevance (scoring._topic_relevance) -/

/-- Embedding of `scoring._topic_relevance` (the caller passes lowercased
text).  `none` stands for Python's falsy `topic_info`. -/
def topic_relevance (text : String) (topic_info : Option TopicInfo) : ℚ :=
  match topic_info with
  | none => 1
  | some ti =>
    let phrase_matches := ti.phrases.countP (fun p => containsSub p text)
    if 1 ≤ phrase_matches then
      min 1 (3 / 5 + 1 / 5 * (phrase_matches : ℚ))
    else
      let word_matches := (ti.stems.filter (fun s => containsSub s text = true)).card
      let total_words := ti.words.length
      if word_matches = 0 then 0
      else if word_matches = 1 ∧ 1 < total_words then 1 / 10
      else if total_words ≤ word_matches then 2 / 5
      else 3 / 20

/-! ## Rounding

Python `round(x, 2)` on floats: round half to even at two decimals,
modelled exactly on the rational (and, below, real) value. -/

/-- Round half to even on rationals. -/
def rhe (x : ℚ) : ℤ :=
  let f := ⌊x⌋
  if x - f < 1 / 2 then f
  else if 1 / 2 < x - f then f + 1
  else if f % 2 = 0 then f else f + 1

/-- Python `round(x, 2)` on a rational value. -/
def round2 (x : ℚ) : ℚ :=
  (rhe (100 * x) : ℚ) / 100

/-- Round half to even on reals. -/
noncomputable def rheR (x : ℝ) : ℤ :=
  let f := ⌊x⌋
  if x - f < 1 / 2 then f
  else if 1 / 2 < x - f then f + 1
  else if f % 2 = 0 then f else f + 1

/-- Python `round(x, 2)` on a real value. -/
noncomputable def round2R (x : ℝ) : ℝ :=
  (rheR (100 * x) : ℝ) / 100

/-! ## Post scoring (scoring.score_post) -/

/-- Effective scoring weights: the values of
`weights.get("pain_weight", 0.3)` etc.; an absent key yields the recorded
default (0.3, 0.25, 0.15, 0.3). -/
structure ScoringWeights where
  pain_weight : ℚ := 3 / 10
  demand_weight : ℚ := 1 / 4
  cross_query_weight : ℚ := 3 / 20
  engagement_weight : ℚ := 3 / 10
deriving DecidableEq

/-- Post fields read by `score_post`; each field models `post.get(key, d)`
with its type-appropriate default (the dynamic-dict behaviour is modelled
separately for the error-handling claim). -/
structure Post where
  title : String := ""
  body : String := ""
  points : ℕ := 0
  matched_queries : List String := []
deriving DecidableEq

/-- Number of pain-lexicon entries contained in the text (each entry counted
at most once, per `sum(1 for w in PAIN_WORDS if w in text)`). -/
def pain_count (text : String) : ℕ :=
  PAIN_WORDS.countP (fun w => containsSub w text)

/-- Number of demand-lexicon entries contained in the text. -/
def demand_count (text : String) : ℕ :=
  DEMAND_WORDS.countP (fun w => containsSub w text)

/-- Engagement term: `min(math.log1p(points), 5) if points > 0 else 0`. -/
noncomputable def engagement (points : ℕ) : ℝ :=
  if 0 < points then min (Real.log (1 + (points : ℝ))) 5 else 0

/-- The `raw_score` expression of `score_post`, as a function of the
intermediate counts (pain, demand, matched-query count), the points, and the
length of the lowercased text. -/
noncomputable def raw_score (w : ScoringWeights) (pain demand nq points textLen : ℕ) : ℝ :=
  (w.pain_weight : ℝ) * pain * 8 +
  (w.demand_weight : ℝ) * demand * 15 +
  (w.cross_query_weight : ℝ) * nq * 4 +
  (w.engagement_weight : ℝ) * engagement points * 2 +
  min ((textLen : ℝ) / 500) 2

/-- The rounded `relevance_score` as a function of the intermediate
quantities and the topic multiplier. -/
noncomputable def relevanceOf (w : ScoringWeights) (pain demand nq points textLen : ℕ)
    (mult : ℚ) : ℝ :=
  round2R (raw_score w pain demand nq points textLen * (mult : ℝ))

/-- Output record of `score_post`. -/
structure Scores where
  pain_score : ℕ
  demand_score : ℕ
  relevance_score : ℝ
  topic_relevance : ℚ

/-- Embedding of `scoring.score_post`. -/
noncomputable def score_post (post : Post) (w : ScoringWeights)
    (topic_info : Option TopicInfo) : Scores :=
  let text := lowerStr (post.title ++ " " ++ post.body)
  let pain := pain_count text
  let demand := demand_count text
  let mult := topic_relevance text topic_info
  { pain_score := pain
    demand_score := demand
    relevance_score :=
      relevanceOf w pain demand post.matched_queries.length post.points text.length mult
    topic_relevance := round2 mult }

example : pain_count "i wish there was a better ai video tool, current ones are so expensive" = 2 := by decide
example : demand_count "i wish there was a better ai video tool, current ones are so expensive" = 1 := by decide
example : (extract_topic_keywords "AI video tools").phrases = ["ai video", "video tools"] := by decide
example : topic_relevance "i wish there was a better ai video tool, current ones are so expensive"
    (some (extract_topic_keywords "AI video tools")) = 4 / 5 := by
  have h1 : (extract_topic_keywords "AI video tools").phrases.countP
      (fun p => containsSub p "i wish there was a better ai video tool, current ones are so expensive") = 1 := by
    decide
  simp only [topic_relevance]
  rw [h1]
  norm_num
example : topic_relevance "video" (some (extract_topic_keywords "video video")) = 1 / 10 := by
  have h1 : (extract_topic_keywords "video video").phrases.countP
      (fun p => containsSub p "video") = 0 := by decide
  have h2 : ((extract_topic_keywords "video video").stems.filter
      (fun s => containsSub s "video" = true)).card = 1 := by decide
  have h3 : (extract_topic_keywords "video video").words.length = 2 := by decide
  simp only [topic_relevance]
  rw [h1, h2, h3]
  norm_num

/-! ## Pain-point records and Jaccard similarity (analyzer.py) -/

/-- Pain-point record fields read or written by the deduplicator; each field
models `pp.get(key, default)` with the code's default (the dynamic-dict
behaviour is modelled separately for the error-handling claim). -/
structure PainPoint where
  description : String := ""
  category : String := ""
  emotional_intensity : ℕ := 0
  payment_signal : Bool := false
  payment_quote : Option String := none
  current_workaround : Option String := none
  unique_users : ℕ := 0
  representative_quotes : List String := []
  source_urls : List String := []
deriving DecidableEq

/-- Python truthiness of an optional string (`None` and `""` are falsy). -/
def truthyStr : Option String → Bool
  | none => false
  | some s => !(s == "")

/-- Embedding of `analyzer._jaccard_similarity`: word-level Jaccard
similarity of the two lowercased, whitespace-split texts, 0 when either
word set is empty. -/
def jaccard_similarity (text_a text_b : String) : ℚ :=
  let words_a := (splitWs (lowerStr text_a)).toFinset
  let words_b := (splitWs (lowerStr text_b)).toFinset
  if words_a = ∅ ∨ words_b = ∅ then 0
  else ((words_a ∩ words_b).card : ℚ) / ((words_a ∪ words_b).card : ℚ)

/-! ## Greedy clustering (analyzer._deduplicate_pain_points, clustering loop) -/

/-- Description of a cluster's representative (`cluster[0]`); clusters are
non-empty by construction. -/
def repDesc (c : List PainPoint) : String :=
  match c with
  | [] => ""
  | p :: _ => p.description

/-- One candidate insertion of the clustering loop: scan the clusters in
creation order, append the candidate to the first cluster whose
representative description is Jaccard-similar at or above the threshold,
else append a new singleton cluster at the end. -/
def insertPP (t : ℚ) (pp : PainPoint) : List (List PainPoint) → List (List PainPoint)
  | [] => [[pp]]
  | c :: cs =>
    if t ≤ jaccard_similarity pp.description (repDesc c) then (c ++ [pp]) :: cs
    else c :: insertPP t pp cs

/-- The clustering phase of `_deduplicate_pain_points`: fold the candidates
through `insertPP` in input order, starting from no clusters. -/
def clustersOf (t : ℚ) (pain_points : List PainPoint) : List (List PainPoint) :=
  pain_points.foldl (fun cs pp => insertPP t pp cs) []

/-! ## Cluster merge (analyzer._deduplicate_pain_points, merge loop) -/

/-- Accumulator of the merge loop over a cluster's non-base members. -/
structure MergeAcc where
  urls : List String
  quotes : List String
  users : ℕ
  intensity : ℕ
  pay : Bool
  pquote : Option String
deriving DecidableEq

/-- One step of the merge loop (`for other in cluster[1:]`). -/
def mergeStep (acc : MergeAcc) (other : PainPoint) : MergeAcc :=
  { urls := acc.urls ++ other.source_urls
    quotes := acc.quotes ++ other.representative_quotes
    users := max acc.users other.unique_users
    intensity := max acc.intensity other.emotional_intensity
    pay := acc.pay || other.payment_signal
    pquote :=
      if other.payment_signal && (!(truthyStr acc.pquote) && truthyStr other.payment_quote) then
        other.payment_quote
      else acc.pquote }

/-- Python `list(dict.fromkeys(l))`: de-duplicate keeping first occurrences. -/
def dedupKeepFirst (l : List String) : List String :=
  (l.foldl (fun acc x => if acc.contains x then acc else acc ++ [x]) [])

/-- Merge one cluster into a single pain point: a singleton cluster passes
its member through unchanged; a larger cluster copies the first member and
overwrites the five merged fields. -/
def mergeCluster (c : List PainPoint) : PainPoint :=
  match c with
  | [] => {}
  | [p] => p
  | base :: rest =>
    let r := rest.foldl mergeStep
      { urls := base.source_urls, quotes := base.representative_quotes,
        users := base.unique_users, intensity := base.emotional_intensity,
        pay := base.payment_signal, pquote := base.payment_quote }
    { base with
      source_urls := dedupKeepFirst r.urls
      representative_quotes := r.quotes.take 5
      unique_users := r.users
      emotional_intensity := r.intensity
      payment_signal := r.pay
      payment_quote := r.pquote }

/-- Embedding of `analyzer._deduplicate_pain_points`. -/
def deduplicate_pain_points (pain_points : List PainPoint) (t : ℚ := 1 / 2) : List PainPoint :=
  (clustersOf t pain_points).map mergeCluster

/-! ## Cross-platform signals (analyzer._extract_platforms and
analyzer._add_cross_platform_signals) -/

/-- Platform detected for one URL by the if/elif chain of
`_extract_platforms` (at most one platform per URL, first match wins). -/
def platformOf (url : String) : Option String :=
  let u := lowerStr url
  if containsSub "news.ycombinator.com" u || containsSub "hn_" u then some "hn"
  else if containsSub "reddit.com" u then some "reddit"
  else if containsSub "producthunt.com" u then some "producthunt"
  else if containsSub "twitter.com" u || containsSub "x.com" u then some "twitter"
  else if containsSub "g2.com" u then some "g2"
  else if containsSub "capterra.com" u then some "capterra"
  else none

/-- Embedding of `analyzer._extract_platforms`: the set of platforms of all
URLs. -/
def extract_platforms (source_urls : List String) : Finset String :=
  (source_urls.filterMap platformOf).toFinset

/-- A pain point with the three derived cross-platform fields attached. -/
structure TaggedPainPoint where
  pp : PainPoint
  platforms : List String
  platform_count : ℕ
  cross_platform_signal : String
deriving DecidableEq

/-- Embedding of `analyzer._add_cross_platform_signals` on one pain point. -/
def add_cross_platform_signals (p : PainPoint) : TaggedPainPoint :=
  let ps := extract_platforms p.source_urls
  { pp := p
    platforms := if ps = ∅ then [] else ps.sort (· ≤ ·)
    platform_count := if ps = ∅ then 1 else ps.card
    cross_platform_signal :=
      if (if ps = ∅ then 1 else ps.card) ≥ 3 then "strong"
      else if (if ps = ∅ then 1 else ps.card) = 2 then "moderate"
      else "single" }

example : extract_platforms ["https://news.ycombinator.com/item?id=1",
    "https://reddit.com/r/x/y", "https://g2.com/z"] = {"g2", "hn", "reddit"} := by decide
example : jaccard_similarity "Export lacks 4K resolution support" "No support for exporting in 4K" = 2 / 9 := by
  have h : ((splitWs (lowerStr "Export lacks 4K resolution support")).toFinset ∩
      (splitWs (lowerStr "No support for exporting in 4K")).toFinset).card = 2 := by decide
  have h2 : ((splitWs (lowerStr "Export lacks 4K resolution support")).toFinset ∪
      (splitWs (lowerStr "No support for exporting in 4K")).toFinset).card = 9 := by decide
  simp only [jaccard_similarity]
  rw [h, h2]
  norm_num
  decide

/-! ## Dynamic-record model (error-handling claim)

Posts and pain-point candidates reach the code as Python dicts whose fields
may be absent.  To settle the never-raises claim the two entry points are
re-embedded over a dynamic value type: every dict access that could raise a
Python exception (a type-inappropriate field value) becomes `Except.error`,
while `dict.get` with a default never raises. -/

/-- Dynamic Python value. -/
inductive PyVal where
  | vstr (s : String)
  | vint (n : ℤ)
  | vbool (b : Bool)
  | vnone
  | vlist (l : List PyVal)

/-- A Python dict with string keys (keys are unique in Python; lookup takes
the first binding). -/
abbrev Dict := List (String × PyVal)

/-- Python `d.get(k, dflt)` — total, never raises. -/
def dget (d : Dict) (k : String) (dflt : PyVal) : PyVal :=
  match d.find? (fun kv => kv.1 == k) with
  | some kv => kv.2
  | none => dflt

/-- Python `d[k] = v`. -/
def dset (d : Dict) (k : String) (v : PyVal) : Dict :=
  if (List.find? (fun kv => kv.1 == k) d).isSome then
    d.map (fun kv => if kv.1 == k then (k, v) else kv)
  else d ++ [(k, v)]

/-- Use a dynamic value as a string (Python raises on `.lower()`/`+` for
non-strings). -/
def asStr : PyVal → Except String String
  | .vstr s => .ok s
  | _ => .error "TypeError"

/-- Use a dynamic value as an integer (Python `max`/arithmetic raises when
mixing ints with non-ints). -/
def asInt : PyVal → Except String ℤ
  | .vint n => .ok n
  | _ => .error "TypeError"

/-- Use a dynamic value as a list. -/
def asList : PyVal → Except String (List PyVal)
  | .vlist l => .ok l
  | _ => .error "TypeError"

/-- Use a dynamic value as a list of strings (`list(dict.fromkeys(...))`
needs hashable elements; the schema prescribes URL strings). -/
def asStrList (v : PyVal) : Except String (List String) := do
  let l ← asList v
  l.mapM asStr

/-- Python truthiness of a dynamic value — total, never raises. -/
def truthy : PyVal → Bool
  | .vstr s => !(s == "")
  | .vint n => !(n == 0)
  | .vbool b => b
  | .vnone => false
  | .vlist l => !l.isEmpty

/-- Dynamic-record embedding of `score_post`: the four `post.get` reads are
checked for type-appropriate values, everything after is the pure scoring
computation. -/
noncomputable def score_post_dyn (post : Dict) (w : ScoringWeights)
    (topic_info : Option TopicInfo) : Except String Scores := do
  let title ← asStr (dget post "title" (.vstr ""))
  let body ← asStr (dget post "body" (.vstr ""))
  let points ← asInt (dget post "points" (.vint 0))
  let mq ← asList (dget post "matched_queries" (.vlist []))
  let text := lowerStr (title ++ " " ++ body)
  let mult := topic_relevance text topic_info
  pure
    { pain_score := pain_count text
      demand_score := demand_count text
      relevance_score :=
        relevanceOf w (pain_count text) (demand_count text) mq.length points.toNat text.length mult
      topic_relevance := round2 mult }

/-- Dynamic Jaccard similarity: `.lower()` raises on non-strings. -/
def jaccard_dyn (a b : PyVal) : Except String ℚ := do
  let sa ← asStr a
  let sb ← asStr b
  pure (jaccard_similarity sa sb)

/-- Dynamic candidate insertion of the clustering loop. -/
def insert_dyn (t : ℚ) (pp : Dict) : List (List Dict) → Except String (List (List Dict))
  | [] => pure [[pp]]
  | c :: cs => do
    let s ← jaccard_dyn (dget pp "description" (.vstr ""))
      (dget (c.headD []) "description" (.vstr ""))
    if t ≤ s then pure ((c ++ [pp]) :: cs)
    else do
      let r ← insert_dyn t pp cs
      pure (c :: r)

/-- Dynamic merge-loop accumulator. -/
structure MergeAccD where
  urls : List String
  quotes : List PyVal
  users : ℤ
  intensity : ℤ
  pay : PyVal
  pquote : PyVal
  pquoteSet : Bool

/-- One dynamic step of the merge loop. -/
def mergeStep_dyn (acc : MergeAccD) (other : Dict) : Except String MergeAccD := do
  let ourls ← asStrList (dget other "source_urls" (.vlist []))
  let oquotes ← asList (dget other "representative_quotes" (.vlist []))
  let ousers ← asInt (dget other "unique_users" (.vint 0))
  let oint ← asInt (dget other "emotional_intensity" (.vint 0))
  let osig := dget other "payment_signal" .vnone
  let oq := dget other "payment_quote" .vnone
  if truthy osig then
    if !(truthy acc.pquote) && truthy oq then
      pure { acc with
        urls := acc.urls ++ ourls
        quotes := acc.quotes ++ oquotes
        users := max acc.users ousers
        intensity := max acc.intensity oint
        pay := .vbool true
        pquote := oq
        pquoteSet := true }
    else
      pure { acc with
        urls := acc.urls ++ ourls
        quotes := acc.quotes ++ oquotes
        users := max acc.users ousers
        intensity := max acc.intensity oint
        pay := .vbool true }
  else
    pure { acc with
      urls := acc.urls ++ ourls
      quotes := acc.quotes ++ oquotes
      users := max acc.users ousers
      intensity := max acc.intensity oint }

/-- Dynamic merge of one cluster. -/
def merge_dyn (c : List Dict) : Except String Dict :=
  match c with
  | [] => pure []
  | [p] => pure p
  | base :: rest => do
    let urls0 ← asStrList (dget base "source_urls" (.vlist []))
    let quotes0 ← asList (dget base "representative_quotes" (.vlist []))
    let users0 ← asInt (dget base "unique_users" (.vint 0))
    let int0 ← asInt (dget base "emotional_intensity" (.vint 0))
    let r ← rest.foldlM mergeStep_dyn
      { urls := urls0, quotes := quotes0, users := users0, intensity := int0,
        pay := dget base "payment_signal" (.vbool false),
        pquote := dget base "payment_quote" .vnone, pquoteSet := false }
    let d1 := if r.pquoteSet then dset base "payment_quote" r.pquote else base
    pure (dset (dset (dset (dset (dset d1
      "source_urls" (.vlist ((dedupKeepFirst r.urls).map .vstr)))
      "representative_quotes" (.vlist (r.quotes.take 5)))
      "unique_users" (.vint r.users))
      "emotional_intensity" (.vint r.intensity))
      "payment_signal" r.pay)

/-- Dynamic-record embedding of `_deduplicate_pain_points`. -/
def deduplicate_dyn (pain_points : List Dict) (t : ℚ := 1 / 2) : Except String (List Dict) := do
  let cs ← pain_points.foldlM (fun acc pp => insert_dyn t pp acc) []
  cs.mapM merge_dyn

/-- A field is either absent or satisfies the given shape test. -/
def fieldIs (d : Dict) (k : String) (p : PyVal → Bool) : Bool :=
  match d.find? (fun kv => kv.1 == k) with
  | none => true
  | some kv => p kv.2

/-- Shape tests for dynamic values. -/
def isStrV : PyVal → Bool
  | .vstr _ => true
  | _ => false

/-- Integer shape test. -/
def isIntV : PyVal → Bool
  | .vint _ => true
  | _ => false

/-- List shape test. -/
def isListV : PyVal → Bool
  | .vlist _ => true
  | _ => false

/-- List-of-strings shape test. -/
def isStrListV : PyVal → Bool
  | .vlist l => l.all isStrV
  | _ => false

/-- A post record with type-appropriate (possibly absent) fields. -/
def WellTypedPost (d : Dict) : Bool :=
  fieldIs d "title" isStrV && fieldIs d "body" isStrV &&
  fieldIs d "points" isIntV && fieldIs d "matched_queries" isListV

/-- A pain-point candidate record with type-appropriate (possibly absent)
fields; `payment_signal` and `payment_quote` are only ever used through
truthiness and may hold anything. -/
def WellTypedPP (d : Dict) : Bool :=
  fieldIs d "description" isStrV && fieldIs d "source_urls" isStrListV &&
  fieldIs d "representative_quotes" isListV &&
  fieldIs d "unique_users" isIntV && fieldIs d "emotional_intensity" isIntV

/-! ## Reference-store model of `score_posts` (frame/mutation claim)

`score_posts` runs `p.update(scores)` on every record of the caller's list
and then `posts.sort(...)` on the list itself, returning that same list.
To make the in-place effects observable, the caller's records are modelled
as a store (a list of records addressed by position, each record a `Post`
together with its score fields, present once written), and the returned
list is modelled as the list of store addresses the caller receives back.
The first component of the result is the store after the call; the second
is the returned list, as addresses into that store. -/

/-- A caller-owned record: the post fields plus the score fields written by
`p.update(scores)` (absent before the call). -/
abbrev PostRec := Post × Option Scores

/-- Stable descending insertion by key: insert `i` before the first index
whose key is strictly smaller, keeping arrival order among equal keys
(Python `list.sort(key=..., reverse=True)` is stable). -/
noncomputable def insertDesc (key : ℕ → ℝ) (i : ℕ) : List ℕ → List ℕ
  | [] => [i]
  | j :: js => if key j < key i then i :: j :: js else j :: insertDesc key i js

/-- The sort key `x["relevance_score"]` read back from the updated store. -/
noncomputable def relKey (store2 : List PostRec) (i : ℕ) : ℝ :=
  ((store2.getD i ({}, none)).2.getD
    { pain_score := 0, demand_score := 0, relevance_score := 0,
      topic_relevance := 0 }).relevance_score

/-- Embedding of `scoring.score_posts` over the reference store: every
record in the store is updated in place with its scores, and the caller's
list — the addresses `0 .. n-1` — is sorted in place by `relevance_score`
descending and handed back. -/
noncomputable def score_posts_ref (store : List PostRec) (w : ScoringWeights)
    (topic : Option TopicInfo) : List PostRec × List ℕ :=
  let store2 := store.map (fun r => (r.1, some (score_post r.1 w topic)))
  (store2, (List.range store.length).foldl
    (fun acc i => insertDesc (relKey store2) i acc) [])

/-! ## Helper lemmas -/

/-- Appending one candidate folds through a single insertion. -/
theorem clustersOf_append (t : ℚ) (pps : List PainPoint) (pp : PainPoint) :
    clustersOf t (pps ++ [pp]) = insertPP t pp (clustersOf t pps) := by
  simp [clustersOf, List.foldl_append]

/-- When no existing representative qualifies, the candidate opens a new
singleton cluster at the end. -/
theorem insertPP_no_match (t : ℚ) (pp : PainPoint) :
    ∀ cs : List (List PainPoint),
      (∀ c ∈ cs, jaccard_similarity pp.description (repDesc c) < t) →
      insertPP t pp cs = cs ++ [[pp]] := by
  intro cs
  induction cs with
  | nil => intro _; rfl
  | cons c cs ih =>
    intro h
    have hc : ¬ t ≤ jaccard_similarity pp.description (repDesc c) :=
      not_le.mpr (h c (List.mem_cons_self c cs))
    simp only [insertPP, if_neg hc, List.cons_append, List.cons.injEq, true_and]
    exact ih (fun d hd => h d (List.mem_cons_of_mem c hd))

/-- The candidate joins the first qualifying cluster, which keeps its place,
its earlier members and its representative. -/
theorem insertPP_first_match (t : ℚ) (pp : PainPoint) :
    ∀ (cs : List (List PainPoint)) (i : ℕ), i < cs.length →
      t ≤ jaccard_similarity pp.description (repDesc (cs.getD i [])) →
      (∀ j, j < i → jaccard_similarity pp.description (repDesc (cs.getD j [])) < t) →
      insertPP t pp cs = cs.take i ++ ((cs.getD i []) ++ [pp]) :: cs.drop (i + 1) := by
  intro cs
  induction cs with
  | nil => intro i h; exact absurd h (Nat.not_lt_zero i)
  | cons c cs ih =>
    intro i h hyes hbefore
    cases i with
    | zero =>
      simp only [List.getD_cons_zero] at hyes
      simp [insertPP, if_pos hyes]
    | succ i =>
      have h0 : jaccard_similarity pp.description (repDesc c) < t := by
        have := hbefore 0 (Nat.succ_pos i)
        simpa using this
      have hno : ¬ t ≤ jaccard_similarity pp.description (repDesc c) := not_le.mpr h0
      simp only [insertPP, if_neg hno]
      have hi : i < cs.length := Nat.lt_of_succ_lt_succ h
      have := ih i hi (by simpa using hyes)
        (fun j hj => by simpa using hbefore (j + 1) (Nat.succ_lt_succ hj))
      simp [this]

/-- C10 helper: the pain and demand counters of `score_post`. -/
theorem score_post_counts (post : Post) (w : ScoringWeights) (ti : Option TopicInfo) :
    (score_post post w ti).pain_score = pain_count (lowerStr (post.title ++ " " ++ post.body))
    ∧ (score_post post w ti).demand_score = demand_count (lowerStr (post.title ++ " " ++ post.body)) :=
  ⟨rfl, rfl⟩

/-! ## Claim C10 -/

/-- Claim C10: for every post, `pain_score` and `demand_score` count each
lexicon entry at most once regardless of how many times it occurs in the
text (they equal the number of lexicon entries present in the text), so
`pain_score ≤ 30` (the pain lexicon size) and `demand_score ≤ 13` (the
demand lexicon size). -/
theorem lexicon_counts_bounded (post : Post) (w : ScoringWeights) (ti : Option TopicInfo) :
    (score_post post w ti).pain_score =
      (PAIN_WORDS.filter
        (fun v => containsSub v (lowerStr (post.title ++ " " ++ post.body)))).length
    ∧ (score_post post w ti).demand_score =
      (DEMAND_WORDS.filter
        (fun v => containsSub v (lowerStr (post.title ++ " " ++ post.body)))).length
    ∧ (score_post post w ti).pain_score ≤ 30
    ∧ (score_post post w ti).demand_score ≤ 13 := by
  refine ⟨?_, ?_, ?_, ?_⟩
  · rw [(score_post_counts post w ti).1, pain_count, List.countP_eq_length_filter]
  · rw [(score_post_counts post w ti).2, demand_count, List.countP_eq_length_filter]
  · rw [(score_post_counts post w ti).1]
    calc pain_count (lowerStr (post.title ++ " " ++ post.body))
        ≤ PAIN_WORDS.length := List.countP_le_length _
      _ = 30 := by decide
  · rw [(score_post_counts post w ti).2]
    calc demand_count (lowerStr (post.title ++ " " ++ post.body))
        ≤ DEMAND_WORDS.length := List.countP_le_length _
      _ = 13 := by decide

/-! ## Claim C2 -/

/-- Claim C2: the deduplicator processes candidates in input order; each
candidate joins the first cluster, in cluster-creation order, whose
representative description reaches the similarity threshold (that cluster
keeps its position, earlier members and representative, and the candidate
is appended to it); when no cluster qualifies the candidate becomes a new
singleton cluster appended after all existing clusters. -/
theorem dedup_first_qualifying_cluster (t : ℚ) (pps : List PainPoint) (pp : PainPoint) :
    clustersOf t (pps ++ [pp]) = insertPP t pp (clustersOf t pps)
    ∧ ((∀ c ∈ clustersOf t pps, jaccard_similarity pp.description (repDesc c) < t) →
        insertPP t pp (clustersOf t pps) = clustersOf t pps ++ [[pp]])
    ∧ ∀ i, i < (clustersOf t pps).length →
        t ≤ jaccard_similarity pp.description (repDesc ((clustersOf t pps).getD i [])) →
        (∀ j, j < i → jaccard_similarity pp.description
          (repDesc ((clustersOf t pps).getD j [])) < t) →
        insertPP t pp (clustersOf t pps) =
          (clustersOf t pps).take i ++
            (((clustersOf t pps).getD i []) ++ [pp]) :: (clustersOf t pps).drop (i + 1) :=
  ⟨clustersOf_append t pps pp,
   insertPP_no_match t pp (clustersOf t pps),
   fun i h hyes hbefore => insertPP_first_match t pp (clustersOf t pps) i h hyes hbefore⟩

/-- Witness data: first candidate, unrelated description. -/
def wppA : PainPoint := { description := "alpha beta" }

/-- Witness data: second candidate, disjoint from the first. -/
def wppB : PainPoint := { description := "gamma delta" }

/-- Witness data: third candidate, identical description to the second. -/
def wppC : PainPoint := { description := "gamma delta" }

/-- Concrete Jaccard value used by the witness. -/
theorem jacc_gd_ab : jaccard_similarity "gamma delta" "alpha beta" = 0 := by
  simp only [jaccard_similarity]
  rw [if_neg (by decide)]
  rw [show ((splitWs (lowerStr "gamma delta")).toFinset ∩
    (splitWs (lowerStr "alpha beta")).toFinset).card = 0 by decide]
  rw [show ((splitWs (lowerStr "gamma delta")).toFinset ∪
    (splitWs (lowerStr "alpha beta")).toFinset).card = 4 by decide]
  norm_num

/-- Concrete Jaccard value used by the witness. -/
theorem jacc_gd_gd : jaccard_similarity "gamma delta" "gamma delta" = 1 := by
  simp only [jaccard_similarity]
  rw [if_neg (by decide)]
  rw [show ((splitWs (lowerStr "gamma delta")).toFinset ∩
    (splitWs (lowerStr "gamma delta")).toFinset).card = 2 by decide]
  rw [show ((splitWs (lowerStr "gamma delta")).toFinset ∪
    (splitWs (lowerStr "gamma delta")).toFinset).card = 2 by decide]
  norm_num

/-- The two witness candidates cluster into two singletons at threshold 1/2. -/
theorem wclusters_eq : clustersOf (1 / 2) [wppA, wppB] = [[wppA], [wppB]] := by
  have h2 : ¬ ((1 / 2 : ℚ) ≤ jaccard_similarity wppB.description (repDesc [wppA])) := by
    rw [show jaccard_similarity wppB.description (repDesc [wppA]) = 0 from jacc_gd_ab]
    norm_num
  show insertPP (1 / 2) wppB [[wppA]] = [[wppA], [wppB]]
  rw [show insertPP (1 / 2 : ℚ) wppB [[wppA]] =
    (if (1 / 2 : ℚ) ≤ jaccard_similarity wppB.description (repDesc [wppA])
      then ([wppA] ++ [wppB]) :: ([] : List (List PainPoint))
      else [wppA] :: insertPP (1 / 2) wppB []) from rfl]
  rw [if_neg h2]
  rfl

/-- Hypothesis instance for the witness: index 1 is in range. -/
theorem wit_c2_len : 1 < (clustersOf (1 / 2) [wppA, wppB]).length := by
  rw [wclusters_eq]; decide

/-- Hypothesis instance for the witness: cluster 1 qualifies. -/
theorem wit_c2_match : (1 / 2 : ℚ) ≤ jaccard_similarity wppC.description
    (repDesc ((clustersOf (1 / 2) [wppA, wppB]).getD 1 [])) := by
  rw [wclusters_eq]
  show (1 / 2 : ℚ) ≤ jaccard_similarity "gamma delta" "gamma delta"
  rw [jacc_gd_gd]
  norm_num

/-- Hypothesis instance for the witness: no earlier cluster qualifies. -/
theorem wit_c2_before : ∀ j, j < 1 → jaccard_similarity wppC.description
    (repDesc ((clustersOf (1 / 2) [wppA, wppB]).getD j [])) < 1 / 2 := by
  intro j hj
  interval_cases j
  rw [wclusters_eq]
  show jaccard_similarity "gamma delta" "alpha beta" < 1 / 2
  rw [jacc_gd_ab]
  norm_num

/-- Witness for claim C2: at threshold 1/2, the candidate "gamma delta"
skips the dissimilar first cluster and joins the qualifying second cluster,
which keeps its representative. -/
theorem dedup_first_qualifying_cluster_witness :
    1 < (clustersOf (1 / 2) [wppA, wppB]).length ∧
    (1 / 2 : ℚ) ≤ jaccard_similarity wppC.description
      (repDesc ((clustersOf (1 / 2) [wppA, wppB]).getD 1 [])) ∧
    insertPP (1 / 2) wppC (clustersOf (1 / 2) [wppA, wppB]) =
      (clustersOf (1 / 2) [wppA, wppB]).take 1 ++
        (((clustersOf (1 / 2) [wppA, wppB]).getD 1 []) ++ [wppC]) ::
          (clustersOf (1 / 2) [wppA, wppB]).drop 2 :=
  ⟨wit_c2_len, wit_c2_match,
    (dedup_first_qualifying_cluster (1 / 2) [wppA, wppB] wppC).2.2 1
      wit_c2_len wit_c2_match wit_c2_before⟩

/-! ## Claim C7 -/

/-- The `users` component of the merge fold only ever takes maxima. -/
theorem foldl_mergeStep_users : ∀ (rest : List PainPoint) (acc : MergeAcc),
    (rest.foldl mergeStep acc).users =
      rest.foldl (fun u p => max u p.unique_users) acc.users := by
  intro rest
  induction rest with
  | nil => intro acc; rfl
  | cons p rest ih => intro acc; simp only [List.foldl]; rw [ih]; rfl

/-- The seed of a max-fold is below the result. -/
theorem le_foldl_max_self : ∀ (l : List ℕ) (a : ℕ), a ≤ l.foldl (fun u v => max u v) a := by
  intro l
  induction l with
  | nil => intro a; exact le_refl a
  | cons b l ih => intro a; exact le_trans (le_max_left a b) (ih (max a b))

/-- Every member of a max-fold is below the result. -/
theorem mem_le_foldl_max : ∀ (l : List ℕ) (a x : ℕ), x ∈ l →
    x ≤ l.foldl (fun u v => max u v) a := by
  intro l
  induction l with
  | nil => intro a x hx; exact absurd hx (List.not_mem_nil x)
  | cons b l ih =>
    intro a x hx
    rcases List.mem_cons.mp hx with h | h
    · subst h; exact le_trans (le_max_right a x) (le_foldl_max_self l (max a x))
    · exact ih (max a b) x h

/-- Claim C7: for every cluster with at least two members the merged pain
point's `unique_users` is the maximum of the members' values (never their
sum), and is therefore at least every individual member's value. -/
theorem merged_unique_users_is_max (c : List PainPoint) (h : 2 ≤ c.length) :
    (mergeCluster c).unique_users =
      (c.map (fun p => p.unique_users)).foldl (fun u v => max u v) 0
    ∧ ∀ p ∈ c, p.unique_users ≤ (mergeCluster c).unique_users := by
  match c with
  | [] => exact absurd h (by decide)
  | [p] => exact absurd h (by simp)
  | base :: next :: rest =>
    have husers : (mergeCluster (base :: next :: rest)).unique_users =
        ((next :: rest).map (fun p => p.unique_users)).foldl
          (fun u v => max u v) base.unique_users := by
      show (List.foldl mergeStep _ (next :: rest)).users = _
      rw [foldl_mergeStep_users]
      rw [List.foldl_map]
    constructor
    · rw [husers]
      simp only [List.map_cons, List.foldl_cons, Nat.zero_max]
    · intro p hp
      rw [husers]
      rcases List.mem_cons.mp hp with hb | hm
      · subst hb
        exact le_foldl_max_self _ _
      · exact mem_le_foldl_max _ _ _ (List.mem_map_of_mem (fun q => q.unique_users) hm)

/-- Witness data for the unique-users merge claim. -/
def wppU1 : PainPoint := { description := "alpha", unique_users := 3 }

/-- Witness data for the unique-users merge claim. -/
def wppU2 : PainPoint := { description := "beta", unique_users := 5 }

/-- Witness for claim C7: a concrete two-member cluster merges to the
maximum (5) of its members' `unique_users` (3 and 5). -/
theorem merged_unique_users_is_max_witness :
    2 ≤ ([wppU1, wppU2] : List PainPoint).length ∧
    (mergeCluster [wppU1, wppU2]).unique_users =
      (([wppU1, wppU2].map (fun p => p.unique_users)).foldl (fun u v => max u v) 0) ∧
    (mergeCluster [wppU1, wppU2]).unique_users = 5 :=
  ⟨by decide,
   (merged_unique_users_is_max [wppU1, wppU2] (by decide)).1,
   by decide⟩

/-! ## Claim C4 -/

/-- The platform set only depends on which URLs occur, so any permutation
of the URL list leaves it unchanged. -/
theorem extract_platforms_perm {l l' : List String} (h : l.Perm l') :
    extract_platforms l = extract_platforms l' := by
  apply Finset.ext
  intro a
  simp only [extract_platforms, List.mem_toFinset, List.mem_filterMap]
  constructor
  · rintro ⟨u, hu, hp⟩; exact ⟨u, h.mem_iff.mp hu, hp⟩
  · rintro ⟨u, hu, hp⟩; exact ⟨u, h.mem_iff.mpr hu, hp⟩

/-- Claim C4: `platform_count` is the number of distinct platforms detected
from `source_urls`, floored at 1 when no URL matches any platform;
`cross_platform_signal` is strictly a function of `platform_count`
(at least 3 gives strong, exactly 2 gives moderate, otherwise single); the
`platforms` list is sorted; and permuting `source_urls` changes neither
`platform_count`, nor `cross_platform_signal`, nor the `platforms` list. -/
theorem cross_platform_signals_deterministic (p : PainPoint) :
    ((add_cross_platform_signals p).platform_count =
      if extract_platforms p.source_urls = ∅ then 1
      else (extract_platforms p.source_urls).card)
    ∧ ((add_cross_platform_signals p).cross_platform_signal =
      if 3 ≤ (add_cross_platform_signals p).platform_count then "strong"
      else if (add_cross_platform_signals p).platform_count = 2 then "moderate"
      else "single")
    ∧ (add_cross_platform_signals p).platforms.Sorted (· ≤ ·)
    ∧ ∀ urls', urls'.Perm p.source_urls →
        (add_cross_platform_signals { p with source_urls := urls' }).platform_count =
          (add_cross_platform_signals p).platform_count
        ∧ (add_cross_platform_signals { p with source_urls := urls' }).cross_platform_signal =
          (add_cross_platform_signals p).cross_platform_signal
        ∧ (add_cross_platform_signals { p with source_urls := urls' }).platforms =
          (add_cross_platform_signals p).platforms := by
  refine ⟨rfl, ?_, ?_, ?_⟩
  · show (if (if extract_platforms p.source_urls = ∅ then 1
        else (extract_platforms p.source_urls).card) ≥ 3 then "strong"
      else if (if extract_platforms p.source_urls = ∅ then 1
        else (extract_platforms p.source_urls).card) = 2 then "moderate"
      else "single") = _
    rfl
  · show (if extract_platforms p.source_urls = ∅ then []
      else (extract_platforms p.source_urls).sort (· ≤ ·)).Sorted (· ≤ ·)
    by_cases h : extract_platforms p.source_urls = ∅
    · rw [if_pos h]; exact List.sorted_nil
    · rw [if_neg h]; exact Finset.sort_sorted _ _
  · intro urls' hperm
    have he : extract_platforms urls' = extract_platforms p.source_urls :=
      extract_platforms_perm hperm
    refine ⟨?_, ?_, ?_⟩
    · show (if extract_platforms urls' = ∅ then 1 else (extract_platforms urls').card) = _
      rw [he]; rfl
    · show (if (if extract_platforms urls' = ∅ then 1
          else (extract_platforms urls').card) ≥ 3 then "strong"
        else if (if extract_platforms urls' = ∅ then 1
          else (extract_platforms urls').card) = 2 then "moderate"
        else "single") = _
      rw [he]; rfl
    · show (if extract_platforms urls' = ∅ then []
        else (extract_platforms urls').sort (· ≤ ·)) = _
      rw [he]; rfl

/-- Witness data: the spec's three-platform example pain point. -/
def wpp4 : PainPoint :=
  { description := "export broken"
    source_urls := ["https://news.ycombinator.com/item?id=1",
      "https://reddit.com/r/x/y", "https://g2.com/z"] }

/-- Witness for claim C4: applying the determinism theorem to the spec's
three-platform example and a rotation of its URL list. -/
theorem cross_platform_signals_deterministic_witness :
    (["https://reddit.com/r/x/y", "https://g2.com/z",
       "https://news.ycombinator.com/item?id=1"] : List String).Perm wpp4.source_urls ∧
    (add_cross_platform_signals { wpp4 with
      source_urls := ["https://reddit.com/r/x/y", "https://g2.com/z",
        "https://news.ycombinator.com/item?id=1"] }).platform_count =
      (add_cross_platform_signals wpp4).platform_count ∧
    (add_cross_platform_signals wpp4).platform_count = 3 ∧
    (add_cross_platform_signals wpp4).cross_platform_signal = "strong" :=
  ⟨by decide,
   ((cross_platform_signals_deterministic wpp4).2.2.2
      ["https://reddit.com/r/x/y", "https://g2.com/z",
        "https://news.ycombinator.com/item?id=1"] (by decide)).1,
   by decide, by decide⟩

/-! ## Claim C1

The claim states the piecewise value of `_topic_relevance` with the word
thresholds phrased in terms of distinct topic words.  The code uses
`len(topic_info["words"])`, the token list with multiplicity, so the two
disagree on topics with a repeated token.  Both readings are formalised
below; the claim as stated is refuted and the token-count reading is
proved. -/

/-- Number of topic phrases found in the text (each list entry counted
once, as the code counts). -/
def spec_phrase_count (text : String) (ti : TopicInfo) : ℕ :=
  ti.phrases.countP (fun p => containsSub p text)

/-- Number of topic stems found in the text. -/
def spec_stem_matches (text : String) (ti : TopicInfo) : ℕ :=
  (ti.stems.filter (fun s => containsSub s text = true)).card

/-- The claim's piecewise function exactly as stated, with the 0.1 and 0.4
thresholds measured against the number of DISTINCT topic words. -/
def spec_topic_relevance_distinct (text : String) (ti : TopicInfo) : ℚ :=
  if 1 ≤ spec_phrase_count text ti then
    min 1 (3 / 5 + 1 / 5 * (spec_phrase_count text ti : ℚ))
  else if spec_stem_matches text ti = 0 then 0
  else if spec_stem_matches text ti = 1 ∧ 1 < ti.words.dedup.length then 1 / 10
  else if ti.words.dedup.length ≤ spec_stem_matches text ti then 2 / 5
  else 3 / 20

/-- The claim's piecewise function with the 0.1 and 0.4 thresholds measured
against the topic token list length (tokens counted with multiplicity), as
the code does. -/
def spec_topic_relevance (text : String) (ti : TopicInfo) : ℚ :=
  if 1 ≤ spec_phrase_count text ti then
    min 1 (3 / 5 + 1 / 5 * (spec_phrase_count text ti : ℚ))
  else if spec_stem_matches text ti = 0 then 0
  else if spec_stem_matches text ti = 1 ∧ 1 < ti.words.length then 1 / 10
  else if ti.words.length ≤ spec_stem_matches text ti then 2 / 5
  else 3 / 20

/-- Counterexample to claim C1 as stated: for the extracted topic
"video video" (token list [video, video], one distinct word) and the text
"video", the code returns 0.1 while the claim's distinct-word piecewise
value is 0.4. -/
theorem topic_relevance_distinct_words_counterexample :
    topic_relevance "video" (some (extract_topic_keywords "video video")) = 1 / 10
    ∧ spec_topic_relevance_distinct "video" (extract_topic_keywords "video video") = 2 / 5
    ∧ (1 / 10 : ℚ) ≠ 2 / 5 := by
  have h1 : spec_phrase_count "video" (extract_topic_keywords "video video") = 0 := by decide
  have h2 : spec_stem_matches "video" (extract_topic_keywords "video video") = 1 := by decide
  have h3 : (extract_topic_keywords "video video").words.length = 2 := by decide
  have h4 : (extract_topic_keywords "video video").words.dedup.length = 1 := by decide
  refine ⟨?_, ?_, by norm_num⟩
  · simp only [topic_relevance]
    rw [show (extract_topic_keywords "video video").phrases.countP
      (fun p => containsSub p "video") = 0 from h1]
    rw [show ((extract_topic_keywords "video video").stems.filter
      (fun s => containsSub s "video" = true)).card = 1 from h2]
    rw [h3]
    norm_num
  · simp only [spec_topic_relevance_distinct]
    rw [h1, h2, h4]
    norm_num

/-- Claim C1 as amended: for every text and every extracted topic_info the
code returns exactly the claimed piecewise value once the 0.1 and 0.4
thresholds are measured against the topic token list with multiplicity
(`len(words)`) instead of the distinct-word count; with no topic_info the
result is 1.0. -/
theorem topic_relevance_piecewise_amended (topic text : String) :
    topic_relevance text (some (extract_topic_keywords topic)) =
      spec_topic_relevance text (extract_topic_keywords topic)
    ∧ topic_relevance text none = 1 :=
  ⟨rfl, rfl⟩

/-! ## Rounding helper lemmas -/

/-- Round half to even fixes integers (rational version). -/
theorem rhe_intCast (n : ℤ) : rhe (n : ℚ) = n := by
  unfold rhe
  simp only [Int.floor_intCast, sub_self]
  rw [if_pos (by norm_num)]

/-- Round half to even fixes integers (real version). -/
theorem rheR_intCast (n : ℤ) : rheR (n : ℝ) = n := by
  unfold rheR
  simp only [Int.floor_intCast, sub_self]
  rw [if_pos (by norm_num)]

/-- Two-decimal rounding fixes integers (real version). -/
theorem round2R_intCast (n : ℤ) : round2R (n : ℝ) = n := by
  unfold round2R
  rw [show (100 : ℝ) * (n : ℝ) = ((100 * n : ℤ) : ℝ) by push_cast; ring]
  rw [rheR_intCast]
  push_cast
  ring

/-! ## Claim C6

The spec's worked example.  On the text
"i wish there was a better ai video tool, current ones are so expensive"
the pain lexicon matches BOTH "wish" and "expensive" ("wish" is a pain
word and a substring of "i wish there was"), so `pain_score` is 2, not the
claimed 1; the phrase and demand parts of the example are correct. -/

/-- The example's lowercased text. -/
def c6_text : String := "i wish there was a better ai video tool, current ones are so expensive"

/-- A post whose lowercased `title + " " + body` is exactly the example
text. -/
def c6_post : Post :=
  { title := "i wish there was a better ai video tool, current ones are so"
    body := "expensive" }

/-- The example's extracted topic info. -/
def c6_ti : TopicInfo := extract_topic_keywords "AI video tools"

/-- Counterexample to claim C6 as stated: the example post's `pain_score`
is 2 (the pain lexicon hits "wish" and "expensive"), not 1. -/
theorem example_post_pain_score_counterexample :
    lowerStr (c6_post.title ++ " " ++ c6_post.body) = c6_text
    ∧ (score_post c6_post {} (some c6_ti)).pain_score = 2
    ∧ PAIN_WORDS.filter (fun v => containsSub v c6_text) = ["wish", "expensive"]
    ∧ (score_post c6_post {} (some c6_ti)).pain_score ≠ 1 := by
  refine ⟨by decide, by decide, by decide, by decide⟩

/-- Claim C6 as amended: on the example post `score_post` produces
`topic_relevance = 0.8` (the single phrase "ai video" matches once),
`pain_score = 2` (the pain lexicon hits "wish" and "expensive"), and
`demand_score = 1` (the demand entry "wish there was" matches as a
substring). -/
theorem example_post_scores_amended :
    lowerStr (c6_post.title ++ " " ++ c6_post.body) = c6_text
    ∧ (score_post c6_post {} (some c6_ti)).topic_relevance = 4 / 5
    ∧ (score_post c6_post {} (some c6_ti)).pain_score = 2
    ∧ (score_post c6_post {} (some c6_ti)).demand_score = 1
    ∧ DEMAND_WORDS.filter (fun v => containsSub v c6_text) = ["wish there was"]
    ∧ spec_phrase_count c6_text c6_ti = 1 := by
  have hlow : lowerStr (c6_post.title ++ " " ++ c6_post.body) = c6_text := by decide
  have hmult : topic_relevance c6_text (some c6_ti) = 4 / 5 := by
    have h1 : c6_ti.phrases.countP (fun p => containsSub p c6_text) = 1 := by decide
    simp only [topic_relevance]
    rw [h1]
    norm_num
  refine ⟨hlow, ?_, by decide, by decide, by decide, by decide⟩
  show round2 (topic_relevance (lowerStr (c6_post.title ++ " " ++ c6_post.body)) (some c6_ti)) = 4 / 5
  rw [hlow, hmult]
  unfold round2
  rw [show (100 : ℚ) * (4 / 5) = ((80 : ℤ) : ℚ) by norm_num]
  rw [rhe_intCast]
  norm_num

/-! ## Monotonicity lemmas (claim C3) -/

/-- The floor is below the half-even rounding (rational version). -/
theorem floor_le_rhe (x : ℚ) : ⌊x⌋ ≤ rhe x := by
  simp only [rhe]
  split_ifs <;> omega

/-- The floor is below the half-even rounding (real version). -/
theorem floor_le_rheR (x : ℝ) : ⌊x⌋ ≤ rheR x := by
  simp only [rheR]
  split_ifs <;> omega

/-- The half-even rounding is at most the floor plus one. -/
theorem rheR_le_floor_add_one (x : ℝ) : rheR x ≤ ⌊x⌋ + 1 := by
  simp only [rheR]
  split_ifs <;> omega

/-- Round half to even is monotone. -/
theorem rheR_mono {x y : ℝ} (h : x ≤ y) : rheR x ≤ rheR y := by
  have hf : ⌊x⌋ ≤ ⌊y⌋ := Int.floor_mono h
  rcases lt_or_eq_of_le hf with hlt | heq
  · calc rheR x ≤ ⌊x⌋ + 1 := rheR_le_floor_add_one x
      _ ≤ ⌊y⌋ := by omega
      _ ≤ rheR y := floor_le_rheR y
  · have hsub : x - ⌊x⌋ ≤ y - ⌊x⌋ := by linarith
    simp only [rheR]
    rw [← heq]
    split_ifs <;> first | omega | linarith

/-- Two-decimal rounding is monotone. -/
theorem round2R_mono {x y : ℝ} (h : x ≤ y) : round2R x ≤ round2R y := by
  unfold round2R
  have h2 : rheR (100 * x) ≤ rheR (100 * y) := rheR_mono (by linarith)
  gcongr

/-- Two-decimal rounding fixes zero (real version). -/
theorem round2R_zero : round2R 0 = 0 := by
  rw [show (0 : ℝ) = ((0 : ℤ) : ℝ) by norm_num, round2R_intCast]

/-- Two-decimal rounding fixes zero (rational version). -/
theorem round2_zero : round2 0 = 0 := by
  unfold round2
  rw [show (100 : ℚ) * 0 = ((0 : ℤ) : ℚ) by norm_num, rhe_intCast]
  norm_num

/-- A value at least one tenth does not round to zero at two decimals. -/
theorem round2_ne_zero_of_tenth {x : ℚ} (h : 1 / 10 ≤ x) : round2 x ≠ 0 := by
  have h1 : (10 : ℤ) ≤ ⌊(100 : ℚ) * x⌋ := Int.le_floor.mpr (by push_cast; linarith)
  have h2 : (10 : ℤ) ≤ rhe (100 * x) := le_trans h1 (floor_le_rhe _)
  unfold round2
  intro hc
  rw [div_eq_zero_iff] at hc
  rcases hc with hc | hc
  · have : rhe (100 * x) = 0 := by exact_mod_cast hc
    omega
  · norm_num at hc

/-- The engagement term is non-negative. -/
theorem engagement_nonneg (p : ℕ) : 0 ≤ engagement p := by
  unfold engagement
  split_ifs with h
  · exact le_min (Real.log_nonneg (by norm_num)) (by norm_num)
  · exact le_refl 0

/-- The engagement term is monotone in the points. -/
theorem engagement_mono {p q : ℕ} (h : p ≤ q) : engagement p ≤ engagement q := by
  unfold engagement
  by_cases hp : 0 < p
  · have hq : 0 < q := lt_of_lt_of_le hp h
    rw [if_pos hp, if_pos hq]
    refine min_le_min ?_ (le_refl 5)
    apply Real.log_le_log (by positivity)
    have : (p : ℝ) ≤ (q : ℝ) := Nat.cast_le.mpr h
    linarith
  · rw [if_neg hp]
    by_cases hq : 0 < q
    · rw [if_pos hq]
      exact le_min (Real.log_nonneg (by norm_num)) (by norm_num)
    · rw [if_neg hq]

/-- The topic multiplier is non-negative. -/
theorem topic_relevance_nonneg (text : String) (ti : Option TopicInfo) :
    0 ≤ topic_relevance text ti := by
  match ti with
  | none => norm_num [topic_relevance]
  | some t =>
    simp only [topic_relevance]
    split_ifs <;> positivity

/-- The topic multiplier is either zero or at least one tenth. -/
theorem topic_relevance_zero_or_tenth (text : String) (ti : Option TopicInfo) :
    topic_relevance text ti = 0 ∨ 1 / 10 ≤ topic_relevance text ti := by
  match ti with
  | none => right; norm_num [topic_relevance]
  | some t =>
    simp only [topic_relevance]
    split_ifs with h1 h2 h3 h4
    · right
      have hpm : (1 : ℚ) ≤ (t.phrases.countP (fun p => containsSub p text) : ℚ) := by
        exact_mod_cast h1
      exact le_min (by norm_num) (by linarith)
    · left; rfl
    · right; norm_num
    · right; norm_num
    · right; norm_num

/-- The rounded `topic_relevance` output field is zero exactly when the
unrounded multiplier is zero. -/
theorem score_post_topic_relevance_zero_iff (post : Post) (w : ScoringWeights)
    (ti : Option TopicInfo) :
    (score_post post w ti).topic_relevance = 0 ↔
      topic_relevance (lowerStr (post.title ++ " " ++ post.body)) ti = 0 := by
  show round2 (topic_relevance (lowerStr (post.title ++ " " ++ post.body)) ti) = 0 ↔ _
  constructor
  · intro h
    rcases topic_relevance_zero_or_tenth (lowerStr (post.title ++ " " ++ post.body)) ti with h0 | h10
    · exact h0
    · exact absurd h (round2_ne_zero_of_tenth h10)
  · intro h
    rw [h]
    exact round2_zero

/-- With non-negative weights the raw score is monotone in the counts and
points. -/
theorem raw_score_mono (w : ScoringWeights)
    (h1 : 0 ≤ w.pain_weight) (h2 : 0 ≤ w.demand_weight)
    (h3 : 0 ≤ w.cross_query_weight) (h4 : 0 ≤ w.engagement_weight)
    {pain pain2 demand demand2 nq nq2 pts pts2 : ℕ} (len : ℕ)
    (hp : pain ≤ pain2) (hd : demand ≤ demand2) (hn : nq ≤ nq2) (hpts : pts ≤ pts2) :
    raw_score w pain demand nq pts len ≤ raw_score w pain2 demand2 nq2 pts2 len := by
  unfold raw_score
  have c1 : (0 : ℝ) ≤ (w.pain_weight : ℝ) := by exact_mod_cast h1
  have c2 : (0 : ℝ) ≤ (w.demand_weight : ℝ) := by exact_mod_cast h2
  have c3 : (0 : ℝ) ≤ (w.cross_query_weight : ℝ) := by exact_mod_cast h3
  have c4 : (0 : ℝ) ≤ (w.engagement_weight : ℝ) := by exact_mod_cast h4
  refine add_le_add (add_le_add (add_le_add (add_le_add ?_ ?_) ?_) ?_) (le_refl _)
  · exact mul_le_mul_of_nonneg_right
      (mul_le_mul_of_nonneg_left (Nat.cast_le.mpr hp) c1) (by norm_num)
  · exact mul_le_mul_of_nonneg_right
      (mul_le_mul_of_nonneg_left (Nat.cast_le.mpr hd) c2) (by norm_num)
  · exact mul_le_mul_of_nonneg_right
      (mul_le_mul_of_nonneg_left (Nat.cast_le.mpr hn) c3) (by norm_num)
  · exact mul_le_mul_of_nonneg_right
      (mul_le_mul_of_nonneg_left (engagement_mono hpts) c4) (by norm_num)

/-! ## Claim C3 -/

/-- Claim C3 as amended: when the four weights are non-negative (the
claim's "every weights configuration" fails for negative weights, see the
counterexample), `relevance_score` is monotonically non-decreasing in
`pain_score`, `demand_score`, the matched-queries count and the points,
all other inputs held fixed; and for every weights configuration a post
whose `topic_relevance` output is 0 has `relevance_score` 0 regardless of
all other signals. -/
theorem relevance_monotone_and_zero_clamp (w : ScoringWeights) :
    ((0 ≤ w.pain_weight ∧ 0 ≤ w.demand_weight ∧
      0 ≤ w.cross_query_weight ∧ 0 ≤ w.engagement_weight) →
      ∀ (text : String) (ti : Option TopicInfo)
        (pain pain2 demand demand2 nq nq2 pts pts2 len : ℕ),
        pain ≤ pain2 → demand ≤ demand2 → nq ≤ nq2 → pts ≤ pts2 →
        relevanceOf w pain demand nq pts len (topic_relevance text ti) ≤
          relevanceOf w pain2 demand2 nq2 pts2 len (topic_relevance text ti))
    ∧ ∀ (post : Post) (ti : Option TopicInfo),
        (score_post post w ti).topic_relevance = 0 →
        (score_post post w ti).relevance_score = 0 := by
  constructor
  · rintro ⟨h1, h2, h3, h4⟩ text ti pain pain2 demand demand2 nq nq2 pts pts2 len hp hd hn hpts
    unfold relevanceOf
    apply round2R_mono
    apply mul_le_mul_of_nonneg_right
      (raw_score_mono w h1 h2 h3 h4 len hp hd hn hpts)
    exact_mod_cast topic_relevance_nonneg text ti
  · intro post ti hfield
    have hmult : topic_relevance (lowerStr (post.title ++ " " ++ post.body)) ti = 0 :=
      (score_post_topic_relevance_zero_iff post w ti).mp hfield
    show round2R (raw_score w _ _ _ _ _ *
      ((topic_relevance (lowerStr (post.title ++ " " ++ post.body)) ti : ℚ) : ℝ)) = 0
    rw [hmult]
    rw [show (((0 : ℚ) : ℝ)) = 0 by norm_num, mul_zero]
    exact round2R_zero

/-- A negative pain weight for the counterexample. -/
def cexWeights : ScoringWeights := { pain_weight := -1 }

/-- Counterexample to claim C3 as stated over every weights configuration:
with `pain_weight = -1` (weights are unconstrained floats per the spec),
raising the pain count from 0 to 1 strictly decreases `relevance_score`
(the remaining signals held at zero, no topic filtering). -/
theorem relevance_monotone_counterexample :
    relevanceOf cexWeights 1 0 0 0 0 (topic_relevance "" none) <
      relevanceOf cexWeights 0 0 0 0 0 (topic_relevance "" none) := by
  have e0 : engagement 0 = 0 := by
    unfold engagement
    rw [if_neg (by norm_num)]
  have hraw1 : raw_score cexWeights 1 0 0 0 0 = ((-8 : ℤ) : ℝ) := by
    unfold raw_score
    rw [e0]
    simp only [cexWeights]
    norm_num
  have hraw0 : raw_score cexWeights 0 0 0 0 0 = ((0 : ℤ) : ℝ) := by
    unfold raw_score
    rw [e0]
    simp only [cexWeights]
    norm_num
  unfold relevanceOf
  rw [show topic_relevance "" none = 1 from rfl, hraw1, hraw0]
  simp only [Rat.cast_one, mul_one]
  rw [round2R_intCast, round2R_intCast]
  norm_num

/-- Non-negative weights used by the witness (the defaults, written as
normalised rationals). -/
def witWeights : ScoringWeights :=
  { pain_weight := mkRat 3 10, demand_weight := mkRat 1 4,
    cross_query_weight := mkRat 3 20, engagement_weight := mkRat 3 10 }

/-- Off-topic witness post: none of the "AI video tools" stems occur. -/
def witPost : Post := { title := "completely unrelated", body := "content" }

/-- Hypothesis instance for the witness: the off-topic post's rounded
`topic_relevance` output is 0. -/
theorem wit_c3_field_zero : (score_post witPost witWeights (some c6_ti)).topic_relevance = 0 := by
  show round2 (topic_relevance (lowerStr (witPost.title ++ " " ++ witPost.body)) (some c6_ti)) = 0
  rw [show topic_relevance (lowerStr (witPost.title ++ " " ++ witPost.body)) (some c6_ti) = 0
    from by decide]
  exact round2_zero

/-- Witness for claim C3: the default weights are non-negative, the
monotonicity instance holds at concrete counts, and a concrete off-topic
post gets relevance 0. -/
theorem relevance_monotone_and_zero_clamp_witness :
    (0 ≤ witWeights.pain_weight ∧ 0 ≤ witWeights.demand_weight ∧
      0 ≤ witWeights.cross_query_weight ∧ 0 ≤ witWeights.engagement_weight) ∧
    relevanceOf witWeights 0 0 0 0 0 (topic_relevance "" none) ≤
      relevanceOf witWeights 1 2 3 4 0 (topic_relevance "" none) ∧
    (score_post witPost witWeights (some c6_ti)).topic_relevance = 0 ∧
    (score_post witPost witWeights (some c6_ti)).relevance_score = 0 :=
  ⟨by decide,
   (relevance_monotone_and_zero_clamp witWeights).1 (by decide) "" none 0 1 0 2 0 3 0 4 0
     (by decide) (by decide) (by decide) (by decide),
   wit_c3_field_zero,
   (relevance_monotone_and_zero_clamp witWeights).2 witPost (some c6_ti) wit_c3_field_zero⟩

/-! ## Claim C5: idempotence machinery

Invariant of the clustering loop: clusters are non-empty and their
representative descriptions are pairwise dissimilar (every later
representative was once a candidate that failed the threshold against
every earlier representative).  Merging keeps each cluster's description
equal to its representative's, so the merged output re-clusters into
singletons and passes through unchanged. -/

/-- The clustering-loop invariant. -/
def ClusterInv (t : ℚ) (cs : List (List PainPoint)) : Prop :=
  (∀ c ∈ cs, c ≠ []) ∧
  (cs.map repDesc).Pairwise (fun a b => jaccard_similarity b a < t)

/-- Appending a member to a non-empty cluster keeps its representative. -/
theorem repDesc_append (c : List PainPoint) (pp : PainPoint) (h : c ≠ []) :
    repDesc (c ++ [pp]) = repDesc c := by
  match c with
  | [] => exact absurd rfl h
  | q :: c => rfl

/-- Inserting a candidate either keeps the representative list or appends
the candidate's description to it. -/
theorem insertPP_repDescs (t : ℚ) (pp : PainPoint) :
    ∀ cs : List (List PainPoint), (∀ c ∈ cs, c ≠ []) →
      (insertPP t pp cs).map repDesc = cs.map repDesc ∨
      (insertPP t pp cs).map repDesc = cs.map repDesc ++ [pp.description] := by
  intro cs
  induction cs with
  | nil => intro _; right; rfl
  | cons c cs ih =>
    intro h
    by_cases hc : t ≤ jaccard_similarity pp.description (repDesc c)
    · left
      simp only [insertPP, if_pos hc, List.map_cons]
      rw [repDesc_append c pp (h c (List.mem_cons_self c cs))]
    · have := ih (fun d hd => h d (List.mem_cons_of_mem c hd))
      rcases this with heq | heq
      · left
        simp only [insertPP, if_neg hc, List.map_cons, heq]
      · right
        simp only [insertPP, if_neg hc, List.map_cons, heq, List.cons_append]

/-- The clustering-loop invariant is preserved by one insertion. -/
theorem insertPP_inv (t : ℚ) (pp : PainPoint) :
    ∀ cs : List (List PainPoint), ClusterInv t cs → ClusterInv t (insertPP t pp cs) := by
  intro cs
  induction cs with
  | nil =>
    intro _
    exact ⟨fun c hc => by
      simp only [insertPP, List.mem_singleton] at hc
      simp [hc], by simp [insertPP]⟩
  | cons c cs ih =>
    rintro ⟨hne, hpair⟩
    have hcne : c ≠ [] := hne c (List.mem_cons_self c cs)
    have hpair2 : (repDesc c :: cs.map repDesc).Pairwise
        (fun a b => jaccard_similarity b a < t) := by
      rw [List.map_cons] at hpair; exact hpair
    have htail : ClusterInv t cs :=
      ⟨fun d hd => hne d (List.mem_cons_of_mem c hd), (List.pairwise_cons.mp hpair2).2⟩
    have hhead : ∀ b ∈ cs.map repDesc, jaccard_similarity b (repDesc c) < t :=
      (List.pairwise_cons.mp hpair2).1
    by_cases hc : t ≤ jaccard_similarity pp.description (repDesc c)
    · constructor
      · intro d hd
        simp only [insertPP, if_pos hc, List.mem_cons] at hd
        rcases hd with hd | hd
        · subst hd; simp
        · exact hne d (List.mem_cons_of_mem c hd)
      · simp only [insertPP, if_pos hc, List.map_cons,
          repDesc_append c pp hcne]
        rw [List.map_cons] at hpair
        exact hpair
    · have hrec := ih htail
      constructor
      · intro d hd
        simp only [insertPP, if_neg hc, List.mem_cons] at hd
        rcases hd with hd | hd
        · subst hd; exact hcne
        · exact hrec.1 d hd
      · simp only [insertPP, if_neg hc, List.map_cons]
        rw [List.pairwise_cons]
        refine ⟨?_, hrec.2⟩
        intro b hb
        rcases insertPP_repDescs t pp cs htail.1 with heq | heq
        · rw [heq] at hb
          exact hhead b hb
        · rw [heq] at hb
          rcases List.mem_append.mp hb with hb | hb
          · exact hhead b hb
          · rw [List.mem_singleton.mp hb]
            exact not_le.mp hc

/-- The clustering loop establishes the invariant from any invariant
starting state. -/
theorem foldl_insertPP_inv (t : ℚ) :
    ∀ (pps : List PainPoint) (cs : List (List PainPoint)), ClusterInv t cs →
      ClusterInv t (pps.foldl (fun acc pp => insertPP t pp acc) cs) := by
  intro pps
  induction pps with
  | nil => intro cs h; exact h
  | cons pp pps ih => intro cs h; exact ih _ (insertPP_inv t pp cs h)

/-- The clusters produced from any input satisfy the invariant. -/
theorem clustersOf_inv (t : ℚ) (pps : List PainPoint) : ClusterInv t (clustersOf t pps) :=
  foldl_insertPP_inv t pps [] ⟨by simp, by simp⟩

/-- Merging never changes a cluster's description: it stays the
representative's. -/
theorem mergeCluster_desc (c : List PainPoint) (h : c ≠ []) :
    (mergeCluster c).description = repDesc c := by
  match c with
  | [] => exact absurd rfl h
  | [p] => rfl
  | base :: next :: rest => rfl

/-- The deduplicator's output descriptions are the representatives'. -/
theorem dedup_descs (t : ℚ) (pps : List PainPoint) :
    (deduplicate_pain_points pps t).map (fun p => p.description) =
      (clustersOf t pps).map repDesc := by
  show ((clustersOf t pps).map mergeCluster).map (fun p => p.description) = _
  rw [List.map_map]
  apply List.map_congr_left
  intro c hc
  exact mergeCluster_desc c ((clustersOf_inv t pps).1 c hc)

/-- A list of pairwise-dissimilar pain points clusters into singletons. -/
theorem clustersOf_pairwise_singletons (t : ℚ) :
    ∀ (rest done : List PainPoint),
      (((done ++ rest).map (fun p => p.description)).Pairwise
        (fun a b => jaccard_similarity b a < t)) →
      rest.foldl (fun acc pp => insertPP t pp acc) (done.map (fun p => [p])) =
        (done ++ rest).map (fun p => [p]) := by
  intro rest
  induction rest with
  | nil => intro done _; simp
  | cons r rest ih =>
    intro done hpair
    have hfail : ∀ c ∈ done.map (fun p => [p]),
        jaccard_similarity r.description (repDesc c) < t := by
      intro c hc
      rcases List.mem_map.mp hc with ⟨d, hd, hdc⟩
      subst hdc
      have hsplit := (List.pairwise_append.mp (by
        rw [← List.map_append]; exact hpair)).2.2
      have := hsplit d.description (List.mem_map_of_mem _ hd)
        r.description (by simp)
      simpa [repDesc] using this
    have hstep : insertPP t r (done.map (fun p => [p])) =
        done.map (fun p => [p]) ++ [[r]] := insertPP_no_match t r _ hfail
    show List.foldl _ (insertPP t r (done.map fun p => [p])) rest = _
    rw [hstep]
    rw [show done.map (fun p => [p]) ++ [[r]] = (done ++ [r]).map (fun p => [p]) by
      rw [List.map_append]; rfl]
    rw [ih (done ++ [r]) (by simpa using hpair)]
    simp

/-- Merging singleton clusters is the identity. -/
theorem mergeAll_singletons (l : List PainPoint) :
    (l.map (fun p => [p])).map mergeCluster = l := by
  rw [List.map_map]
  have : ∀ p ∈ l, (mergeCluster ∘ fun q => [q]) p = id p := fun p _ => rfl
  rw [List.map_congr_left this, List.map_id]

/-! ## Claim C5 -/

/-- Claim C5: re-running the deduplicator on its own merged output with
the same threshold returns the very same list (same length, same content):
the merged descriptions are the pairwise-dissimilar representatives, so no
pair of output pain points can merge again. -/
theorem deduplicate_idempotent (t : ℚ) (pps : List PainPoint) :
    deduplicate_pain_points (deduplicate_pain_points pps t) t =
      deduplicate_pain_points pps t := by
  have hpair : ((deduplicate_pain_points pps t).map (fun p => p.description)).Pairwise
      (fun a b => jaccard_similarity b a < t) := by
    rw [dedup_descs t pps]
    exact (clustersOf_inv t pps).2
  show (clustersOf t (deduplicate_pain_points pps t)).map mergeCluster =
    deduplicate_pain_points pps t
  rw [show clustersOf t (deduplicate_pain_points pps t) =
    (deduplicate_pain_points pps t).foldl (fun acc pp => insertPP t pp acc)
      (([] : List PainPoint).map (fun p => [p])) from rfl]
  rw [clustersOf_pairwise_singletons t (deduplicate_pain_points pps t) [] (by simpa using hpair)]
  rw [show ([] : List PainPoint) ++ deduplicate_pain_points pps t =
    deduplicate_pain_points pps t from rfl]
  exact mergeAll_singletons _

/-! ## Claim C8 -/

/-- Whether a dynamic computation succeeded (raised no exception). -/
def eIsOk {α : Type} : Except String α → Bool
  | .ok _ => true
  | .error _ => false

/-- A shape test that holds for the default also holds for the retrieved
field value. -/
theorem dget_shape {d : Dict} {k : String} {p : PyVal → Bool} {dv : PyVal}
    (h : fieldIs d k p = true) (hdv : p dv = true) : p (dget d k dv) = true := by
  unfold fieldIs at h
  unfold dget
  cases hf : d.find? (fun kv => kv.1 == k) with
  | none => exact hdv
  | some kv => rw [hf] at h; exact h

/-- String extraction succeeds on string-shaped values. -/
theorem asStr_ok {v : PyVal} (h : isStrV v = true) : ∃ s, asStr v = Except.ok s := by
  cases v
  case vstr s => exact ⟨s, rfl⟩
  all_goals simp [isStrV] at h

/-- Integer extraction succeeds on integer-shaped values. -/
theorem asInt_ok {v : PyVal} (h : isIntV v = true) : ∃ n, asInt v = Except.ok n := by
  cases v
  case vint n => exact ⟨n, rfl⟩
  all_goals simp [isIntV] at h

/-- List extraction succeeds on list-shaped values. -/
theorem asList_ok {v : PyVal} (h : isListV v = true) : ∃ l, asList v = Except.ok l := by
  cases v
  case vlist l => exact ⟨l, rfl⟩
  all_goals simp [isListV] at h

/-- Mapping string extraction over string-shaped elements succeeds. -/
theorem mapM_asStr_ok : ∀ {l : List PyVal}, l.all isStrV = true →
    ∃ ss, l.mapM asStr = Except.ok ss := by
  intro l
  induction l with
  | nil => intro _; exact ⟨[], rfl⟩
  | cons v l ih =>
    intro h
    rw [List.all_cons, Bool.and_eq_true] at h
    obtain ⟨s, hs⟩ := asStr_ok h.1
    obtain ⟨ss, hss⟩ := ih h.2
    refine ⟨s :: ss, ?_⟩
    rw [List.mapM_cons, hs, hss]
    rfl

/-- String-list extraction succeeds on string-list-shaped values. -/
theorem asStrList_ok {v : PyVal} (h : isStrListV v = true) :
    ∃ ss, asStrList v = Except.ok ss := by
  cases v with
  | vlist l =>
    simp only [isStrListV] at h
    obtain ⟨ss, hss⟩ := mapM_asStr_ok h
    exact ⟨ss, hss⟩
  | vstr s => simp [isStrListV] at h
  | vint n => simp [isStrListV] at h
  | vbool b => simp [isStrListV] at h
  | vnone => simp [isStrListV] at h

/-- Decomposition of the post well-typedness test. -/
theorem wtpost_fields {d : Dict} (h : WellTypedPost d = true) :
    fieldIs d "title" isStrV = true ∧ fieldIs d "body" isStrV = true ∧
    fieldIs d "points" isIntV = true ∧ fieldIs d "matched_queries" isListV = true := by
  unfold WellTypedPost at h
  simp only [Bool.and_eq_true] at h
  exact ⟨h.1.1.1, h.1.1.2, h.1.2, h.2⟩

/-- Decomposition of the pain-point well-typedness test. -/
theorem wtpp_fields {d : Dict} (h : WellTypedPP d = true) :
    fieldIs d "description" isStrV = true ∧ fieldIs d "source_urls" isStrListV = true ∧
    fieldIs d "representative_quotes" isListV = true ∧
    fieldIs d "unique_users" isIntV = true ∧ fieldIs d "emotional_intensity" isIntV = true := by
  unfold WellTypedPP at h
  simp only [Bool.and_eq_true] at h
  exact ⟨h.1.1.1.1, h.1.1.1.2, h.1.1.2, h.1.2, h.2⟩

/-- A well-typed post never makes `score_post_dyn` raise. -/
theorem score_post_dyn_ok (post : Dict) (w : ScoringWeights) (ti : Option TopicInfo)
    (h : WellTypedPost post = true) : eIsOk (score_post_dyn post w ti) = true := by
  obtain ⟨ht, hb, hp, hm⟩ := wtpost_fields h
  obtain ⟨s1, e1⟩ := asStr_ok (dget_shape ht (show isStrV (.vstr "") = true from rfl))
  obtain ⟨s2, e2⟩ := asStr_ok (dget_shape hb (show isStrV (.vstr "") = true from rfl))
  obtain ⟨n3, e3⟩ := asInt_ok (dget_shape hp (show isIntV (.vint 0) = true from rfl))
  obtain ⟨l4, e4⟩ := asList_ok (dget_shape hm (show isListV (.vlist []) = true from rfl))
  unfold score_post_dyn
  rw [e1, e2, e3, e4]
  rfl

/-- Dynamic Jaccard never raises on string-shaped descriptions. -/
theorem jaccard_dyn_ok {a b : PyVal} (ha : isStrV a = true) (hb : isStrV b = true) :
    ∃ q, jaccard_dyn a b = Except.ok q := by
  obtain ⟨sa, ea⟩ := asStr_ok ha
  obtain ⟨sb, eb⟩ := asStr_ok hb
  refine ⟨jaccard_similarity sa sb, ?_⟩
  unfold jaccard_dyn
  rw [ea, eb]
  rfl

/-- The representative of a cluster of well-typed records has a
string-shaped description (the empty cluster's placeholder too). -/
theorem head_desc_str {c : List Dict} (h : ∀ d ∈ c, WellTypedPP d = true) :
    isStrV (dget (c.headD []) "description" (.vstr "")) = true := by
  cases c with
  | nil => rfl
  | cons d c => exact dget_shape (wtpp_fields (h d (List.mem_cons_self d c))).1 (show isStrV (.vstr "") = true from rfl)

/-- One dynamic insertion never raises and preserves member
well-typedness. -/
theorem insert_dyn_ok (t : ℚ) (pp : Dict) (hpp : WellTypedPP pp = true) :
    ∀ cs : List (List Dict), (∀ c ∈ cs, ∀ d ∈ c, WellTypedPP d = true) →
      ∃ cs2, insert_dyn t pp cs = Except.ok cs2 ∧
        ∀ c ∈ cs2, ∀ d ∈ c, WellTypedPP d = true := by
  intro cs
  induction cs with
  | nil =>
    intro _
    refine ⟨[[pp]], rfl, ?_⟩
    intro c hc d hd
    rw [List.mem_singleton.mp hc] at hd
    rw [List.mem_singleton.mp hd]
    exact hpp
  | cons c cs ih =>
    intro hmem
    have hcmem : ∀ d ∈ c, WellTypedPP d = true :=
      fun d hd => hmem c (List.mem_cons_self c cs) d hd
    obtain ⟨q, hq⟩ := jaccard_dyn_ok (a := dget pp "description" (.vstr ""))
      (dget_shape (wtpp_fields hpp).1 (show isStrV (.vstr "") = true from rfl)) (head_desc_str hcmem)
    by_cases hle : t ≤ q
    · refine ⟨(c ++ [pp]) :: cs, ?_, ?_⟩
      · unfold insert_dyn
        rw [hq]
        simp only [Bind.bind, Except.bind]
        rw [if_pos hle]
        rfl
      · intro c2 hc2 d hd
        rcases List.mem_cons.mp hc2 with h2 | h2
        · subst h2
          rcases List.mem_append.mp hd with h3 | h3
          · exact hcmem d h3
          · rw [List.mem_singleton.mp h3]; exact hpp
        · exact hmem c2 (List.mem_cons_of_mem c h2) d hd
    · obtain ⟨r, hr, hrmem⟩ := ih (fun c2 h2 => hmem c2 (List.mem_cons_of_mem c h2))
      refine ⟨c :: r, ?_, ?_⟩
      · unfold insert_dyn
        rw [hq]
        simp only [Bind.bind, Except.bind]
        rw [if_neg hle, hr]
        rfl
      · intro c2 hc2 d hd
        rcases List.mem_cons.mp hc2 with h2 | h2
        · subst h2; exact hcmem d hd
        · exact hrmem c2 h2 d hd

/-- The dynamic clustering fold never raises and preserves member
well-typedness. -/
theorem clusters_dyn_ok (t : ℚ) :
    ∀ (pps : List Dict), (∀ d ∈ pps, WellTypedPP d = true) →
      ∀ cs : List (List Dict), (∀ c ∈ cs, ∀ d ∈ c, WellTypedPP d = true) →
      ∃ cs2, pps.foldlM (fun acc pp => insert_dyn t pp acc) cs = Except.ok cs2 ∧
        ∀ c ∈ cs2, ∀ d ∈ c, WellTypedPP d = true := by
  intro pps
  induction pps with
  | nil => intro _ cs hcs; exact ⟨cs, rfl, hcs⟩
  | cons pp pps ih =>
    intro hwt cs hcs
    obtain ⟨cs1, h1, h1mem⟩ :=
      insert_dyn_ok t pp (hwt pp (List.mem_cons_self pp pps)) cs hcs
    obtain ⟨cs2, h2, h2mem⟩ :=
      ih (fun d hd => hwt d (List.mem_cons_of_mem pp hd)) cs1 h1mem
    refine ⟨cs2, ?_, h2mem⟩
    rw [List.foldlM_cons, h1]
    simpa using h2

/-- One dynamic merge step never raises on a well-typed record. -/
theorem mergeStep_dyn_ok (acc : MergeAccD) {other : Dict}
    (h : WellTypedPP other = true) :
    ∃ acc2, mergeStep_dyn acc other = Except.ok acc2 := by
  obtain ⟨hd, hu, hq, hn, he⟩ := wtpp_fields h
  obtain ⟨ss, e1⟩ := asStrList_ok (dget_shape hu (show isStrListV (.vlist []) = true from rfl))
  obtain ⟨l2, e2⟩ := asList_ok (dget_shape hq (show isListV (.vlist []) = true from rfl))
  obtain ⟨n3, e3⟩ := asInt_ok (dget_shape hn (show isIntV (.vint 0) = true from rfl))
  obtain ⟨n4, e4⟩ := asInt_ok (dget_shape he (show isIntV (.vint 0) = true from rfl))
  unfold mergeStep_dyn
  rw [e1, e2, e3, e4]
  simp only [Bind.bind, Except.bind]
  split_ifs <;> exact ⟨_, rfl⟩

/-- The dynamic merge loop never raises on well-typed records. -/
theorem foldlM_mergeStep_dyn_ok :
    ∀ (rest : List Dict), (∀ d ∈ rest, WellTypedPP d = true) →
      ∀ acc : MergeAccD, ∃ r, rest.foldlM mergeStep_dyn acc = Except.ok r := by
  intro rest
  induction rest with
  | nil => intro _ acc; exact ⟨acc, rfl⟩
  | cons other rest ih =>
    intro hwt acc
    obtain ⟨acc2, h2⟩ := mergeStep_dyn_ok acc (hwt other (List.mem_cons_self other rest))
    obtain ⟨r, hr⟩ := ih (fun d hd => hwt d (List.mem_cons_of_mem other hd)) acc2
    refine ⟨r, ?_⟩
    rw [List.foldlM_cons, h2]
    simpa using hr

/-- Merging one cluster of well-typed records never raises. -/
theorem merge_dyn_ok {c : List Dict} (h : ∀ d ∈ c, WellTypedPP d = true) :
    ∃ r, merge_dyn c = Except.ok r := by
  match c with
  | [] => exact ⟨[], rfl⟩
  | [p] => exact ⟨p, rfl⟩
  | base :: next :: rest =>
    have hbase := h base (List.mem_cons_self base (next :: rest))
    obtain ⟨hd, hu, hq, hn, he⟩ := wtpp_fields hbase
    obtain ⟨ss, e1⟩ := asStrList_ok (dget_shape hu (show isStrListV (.vlist []) = true from rfl))
    obtain ⟨l2, e2⟩ := asList_ok (dget_shape hq (show isListV (.vlist []) = true from rfl))
    obtain ⟨n3, e3⟩ := asInt_ok (dget_shape hn (show isIntV (.vint 0) = true from rfl))
    obtain ⟨n4, e4⟩ := asInt_ok (dget_shape he (show isIntV (.vint 0) = true from rfl))
    obtain ⟨r, hr⟩ := foldlM_mergeStep_dyn_ok (next :: rest)
      (fun d hd2 => h d (List.mem_cons_of_mem base hd2))
      { urls := ss, quotes := l2, users := n3, intensity := n4,
        pay := dget base "payment_signal" (.vbool false),
        pquote := dget base "payment_quote" .vnone, pquoteSet := false }
    refine ⟨dset (dset (dset (dset (dset
      (if r.pquoteSet then dset base "payment_quote" r.pquote else base)
      "source_urls" (.vlist ((dedupKeepFirst r.urls).map .vstr)))
      "representative_quotes" (.vlist (r.quotes.take 5)))
      "unique_users" (.vint r.users))
      "emotional_intensity" (.vint r.intensity))
      "payment_signal" r.pay, ?_⟩
    show merge_dyn (base :: next :: rest) = _
    simp only [merge_dyn]
    rw [e1, e2, e3, e4]
    simp only [Bind.bind, Except.bind]
    rw [hr]
    rfl

/-- Mapping the dynamic merge over well-typed clusters never raises. -/
theorem mapM_merge_dyn_ok :
    ∀ (cs : List (List Dict)), (∀ c ∈ cs, ∀ d ∈ c, WellTypedPP d = true) →
      ∃ rs, cs.mapM merge_dyn = Except.ok rs := by
  intro cs
  induction cs with
  | nil => intro _; exact ⟨[], rfl⟩
  | cons c cs ih =>
    intro h
    obtain ⟨r, hr⟩ := merge_dyn_ok (fun d hd => h c (List.mem_cons_self c cs) d hd)
    obtain ⟨rs, hrs⟩ := ih (fun c2 h2 => h c2 (List.mem_cons_of_mem c h2))
    refine ⟨r :: rs, ?_⟩
    rw [List.mapM_cons, hr, hrs]
    rfl

/-- Claim C8: for every post record and every sequence of candidate
records whose present fields are type-appropriate (any combination of
fields may be absent; absent fields take the code's defaults), neither
`score_post` nor the deduplicator raises an exception. -/
theorem score_and_dedup_never_raise (post : Dict) (w : ScoringWeights)
    (ti : Option TopicInfo) (t : ℚ) (cands : List Dict)
    (h1 : WellTypedPost post = true) (h2 : cands.all WellTypedPP = true) :
    eIsOk (score_post_dyn post w ti) = true ∧ eIsOk (deduplicate_dyn cands t) = true := by
  refine ⟨score_post_dyn_ok post w ti h1, ?_⟩
  have hall : ∀ d ∈ cands, WellTypedPP d = true := by
    intro d hd
    exact List.all_eq_true.mp h2 d hd
  obtain ⟨cs, hcs, hmem⟩ := clusters_dyn_ok t cands hall [] (by intro c hc; simp at hc)
  obtain ⟨rs, hrs⟩ := mapM_merge_dyn_ok cs hmem
  unfold deduplicate_dyn
  rw [hcs]
  simp only [Bind.bind, Except.bind]
  rw [hrs]
  rfl

/-- Witness data: a pain-point candidate with some fields absent and the
rest type-appropriate. -/
def wDynPP : Dict :=
  [("description", .vstr "export broken"), ("unique_users", .vint 4)]

/-- Witness data: a post with all fields absent. -/
def wDynPost : Dict := []

/-- Witness for claim C8: the empty post record and a two-candidate batch
(one record with absent fields, one empty record) score and deduplicate
without raising. -/
theorem score_and_dedup_never_raise_witness :
    WellTypedPost wDynPost = true ∧ ([wDynPP, []] : List Dict).all WellTypedPP = true ∧
    eIsOk (score_post_dyn wDynPost witWeights none) = true ∧
    eIsOk (deduplicate_dyn [wDynPP, []] (1 / 2)) = true :=
  ⟨rfl, by decide,
   (score_and_dedup_never_raise wDynPost witWeights none (1 / 2) [wDynPP, []]
     rfl (by decide)).1,
   (score_and_dedup_never_raise wDynPost witWeights none (1 / 2) [wDynPP, []]
     rfl (by decide)).2⟩

/-! ## Claim C9 -/

/-- Stable descending insertion inserts its element somewhere: the result
is a permutation of the element consed onto the list. -/
theorem insertDesc_perm (key : ℕ → ℝ) (i : ℕ) :
    ∀ l : List ℕ, (insertDesc key i l).Perm (i :: l) := by
  intro l
  induction l with
  | nil => exact List.Perm.refl _
  | cons j js ih =>
    show (if key j < key i then i :: j :: js else j :: insertDesc key i js).Perm _
    split_ifs
    · exact List.Perm.refl _
    · exact (ih.cons j).trans (List.Perm.swap i j js)

/-- The insertion-sort fold permutes its input onto the accumulator. -/
theorem foldl_insertDesc_perm (key : ℕ → ℝ) :
    ∀ (l acc : List ℕ),
      (l.foldl (fun a i => insertDesc key i a) acc).Perm (acc ++ l) := by
  intro l
  induction l with
  | nil => intro acc; simp
  | cons i is ih =>
    intro acc
    show (is.foldl (fun a j => insertDesc key j a) (insertDesc key i acc)).Perm _
    exact (ih (insertDesc key i acc)).trans
      (((insertDesc_perm key i acc).append_right is).trans List.perm_middle.symm)

/-- A post whose record will visibly change. -/
def cexPost : Post := { title := "slow and buggy" }

/-- Counterexample to claim C9: `score_posts` does mutate the caller's
records.  In the reference-store model, after the call the single input
record has gained its score fields — the store no longer equals the
caller's original store, so the input records are not left unmutated. -/
theorem score_posts_mutation_counterexample :
    (score_posts_ref [(cexPost, none)] witWeights none).1 =
      [(cexPost, some (score_post cexPost witWeights none))]
    ∧ (score_posts_ref [(cexPost, none)] witWeights none).1 ≠ [(cexPost, none)] := by
  refine ⟨rfl, ?_⟩
  intro h
  simp [score_posts_ref] at h

/-- Stable descending insertion preserves non-increasing-key sortedness. -/
theorem insertDesc_sorted (key : ℕ → ℝ) (i : ℕ) :
    ∀ l : List ℕ, l.Sorted (fun a b => key b ≤ key a) →
      (insertDesc key i l).Sorted (fun a b => key b ≤ key a) := by
  intro l
  induction l with
  | nil => intro _; exact List.sorted_singleton i
  | cons j js ih =>
    intro h
    have hj : ∀ b ∈ js, key b ≤ key j := (List.pairwise_cons.mp h).1
    have hjs : js.Sorted (fun a b => key b ≤ key a) := (List.pairwise_cons.mp h).2
    show (if key j < key i then i :: j :: js else j :: insertDesc key i js).Sorted _
    split_ifs with hlt
    · rw [List.sorted_cons]
      refine ⟨?_, h⟩
      intro b hb
      rcases List.mem_cons.mp hb with hb | hb
      · subst hb; exact le_of_lt hlt
      · exact le_trans (hj b hb) (le_of_lt hlt)
    · rw [List.sorted_cons]
      refine ⟨?_, ih hjs⟩
      intro b hb
      rcases List.mem_cons.mp ((insertDesc_perm key i js).mem_iff.mp hb) with hb | hb
      · subst hb; exact not_lt.mp hlt
      · exact hj b hb

/-- The insertion-sort fold yields a non-increasing-key list. -/
theorem foldl_insertDesc_sorted (key : ℕ → ℝ) :
    ∀ (l acc : List ℕ), acc.Sorted (fun a b => key b ≤ key a) →
      (l.foldl (fun a i => insertDesc key i a) acc).Sorted (fun a b => key b ≤ key a) := by
  intro l
  induction l with
  | nil => intro acc h; exact h
  | cons i is ih => intro acc h; exact ih _ (insertDesc_sorted key i acc h)

/-! Reference model of `_deduplicate_pain_points` with record identity:
the candidates are the caller's records at addresses `0 .. n-1` (the
enumerated store).  The call performs no write to any caller record, so
the store comes back unchanged; the returned list is a new list whose
entries are either `Sum.inl a` — the caller's own record at address `a`
handed back unchanged (`merged_points.append(cluster[0])` on a singleton
cluster aliases the caller's object) — or `Sum.inr q` — a freshly
constructed merged record (`base = dict(cluster[0])` copies before any
write). -/

/-- An address-carrying candidate: the caller's address and the record
value stored there. -/
abbrev IdxPP := ℕ × PainPoint

/-- Representative description of an address-carrying cluster. -/
def repDescRef (c : List IdxPP) : String :=
  match c with
  | [] => ""
  | p :: _ => p.2.description

/-- The clustering loop's insertion over address-carrying candidates
(identical greedy scan; similarity only reads the record values). -/
def insertPPRef (t : ℚ) (pp : IdxPP) : List (List IdxPP) → List (List IdxPP)
  | [] => [[pp]]
  | c :: cs =>
    if t ≤ jaccard_similarity pp.2.description (repDescRef c) then (c ++ [pp]) :: cs
    else c :: insertPPRef t pp cs

/-- The clustering phase over address-carrying candidates. -/
def clustersOfRef (t : ℚ) (pps : List IdxPP) : List (List IdxPP) :=
  pps.foldl (fun cs pp => insertPPRef t pp cs) []

/-- Merge one address-carrying cluster: a singleton returns the caller's
record by address (an alias); two or more members build a fresh merged
record from the member values. -/
def mergeClusterRef : List IdxPP → ℕ ⊕ PainPoint
  | [] => Sum.inr {}
  | [p] => Sum.inl p.1
  | base :: next :: rest => Sum.inr (mergeCluster (base.2 :: next.2 :: rest.map (fun p => p.2)))

/-- Reference-model `_deduplicate_pain_points`: the unchanged store paired
with the returned list of aliases and fresh records. -/
def deduplicate_ref (store : List PainPoint) (t : ℚ := 1 / 2) :
    List PainPoint × List (ℕ ⊕ PainPoint) :=
  (store, (clustersOfRef t store.enum).map mergeClusterRef)

/-- Read a returned entry back as a record value: an alias dereferences
the caller's store, a fresh record is itself. -/
def decodeRef (store : List PainPoint) : ℕ ⊕ PainPoint → PainPoint
  | Sum.inl a => store.getD a {}
  | Sum.inr p => p

/-- Dropping the addresses commutes with the cluster representative. -/
theorem repDescRef_map (c : List IdxPP) :
    repDesc (c.map (fun p => p.2)) = repDescRef c := by
  cases c with
  | nil => rfl
  | cons p c => rfl

/-- Dropping the addresses commutes with one insertion. -/
theorem insertPPRef_map (t : ℚ) (pp : IdxPP) :
    ∀ cs : List (List IdxPP),
      (insertPPRef t pp cs).map (fun c => c.map (fun p => p.2)) =
        insertPP t pp.2 (cs.map (fun c => c.map (fun p => p.2))) := by
  intro cs
  induction cs with
  | nil => rfl
  | cons c cs ih =>
    by_cases h : t ≤ jaccard_similarity pp.2.description (repDescRef c)
    · have h2 : t ≤ jaccard_similarity pp.2.description (repDesc (c.map (fun p => p.2))) := by
        rw [repDescRef_map]; exact h
      simp only [insertPPRef, insertPP, if_pos h, if_pos h2, List.map_cons,
        List.map_append, List.map_nil]
    · have h2 : ¬ t ≤ jaccard_similarity pp.2.description (repDesc (c.map (fun p => p.2))) := by
        rw [repDescRef_map]; exact h
      simp only [insertPPRef, insertPP, if_neg h, if_neg h2, List.map_cons]
      rw [ih]

/-- Dropping the addresses commutes with the whole clustering fold. -/
theorem clustersOfRef_map (t : ℚ) :
    ∀ (pps : List IdxPP) (acc : List (List IdxPP)),
      (pps.foldl (fun cs pp => insertPPRef t pp cs) acc).map (fun c => c.map (fun p => p.2)) =
        (pps.map (fun p => p.2)).foldl (fun cs pp => insertPP t pp cs)
          (acc.map (fun c => c.map (fun p => p.2))) := by
  intro pps
  induction pps with
  | nil => intro acc; rfl
  | cons pp pps ih =>
    intro acc
    simp only [List.foldl_cons, List.map_cons]
    rw [ih, insertPPRef_map]

/-- Every member of an inserted cluster list is an old member or the new
candidate. -/
theorem insertPPRef_members (t : ℚ) (pp : IdxPP) :
    ∀ (cs : List (List IdxPP)) (c : List IdxPP) (p : IdxPP),
      c ∈ insertPPRef t pp cs → p ∈ c → (∃ c0 ∈ cs, p ∈ c0) ∨ p = pp := by
  intro cs
  induction cs with
  | nil =>
    intro c p hc hp
    right
    rw [List.mem_singleton.mp hc] at hp
    exact List.mem_singleton.mp hp
  | cons c0 cs ih =>
    intro c p hc hp
    by_cases h : t ≤ jaccard_similarity pp.2.description (repDescRef c0)
    · simp only [insertPPRef, if_pos h, List.mem_cons] at hc
      rcases hc with hc | hc
      · subst hc
        rcases List.mem_append.mp hp with hp | hp
        · exact Or.inl ⟨c0, List.mem_cons_self c0 cs, hp⟩
        · exact Or.inr (List.mem_singleton.mp hp)
      · exact Or.inl ⟨c, List.mem_cons_of_mem c0 hc, hp⟩
    · simp only [insertPPRef, if_neg h, List.mem_cons] at hc
      rcases hc with hc | hc
      · subst hc; exact Or.inl ⟨c, List.mem_cons_self c cs, hp⟩
      · rcases ih c p hc hp with ⟨c1, hc1, hp1⟩ | heq
        · exact Or.inl ⟨c1, List.mem_cons_of_mem c0 hc1, hp1⟩
        · exact Or.inr heq

/-- Every member of the produced clusters is one of the candidates. -/
theorem clustersOfRef_members (t : ℚ) :
    ∀ (pps : List IdxPP) (acc : List (List IdxPP)),
      ∀ c ∈ pps.foldl (fun cs pp => insertPPRef t pp cs) acc, ∀ p ∈ c,
        (∃ c0 ∈ acc, p ∈ c0) ∨ p ∈ pps := by
  intro pps
  induction pps with
  | nil => intro acc c hc p hp; exact Or.inl ⟨c, hc, hp⟩
  | cons pp pps ih =>
    intro acc c hc p hp
    rcases ih (insertPPRef t pp acc) c hc p hp with ⟨c0, hc0, hp0⟩ | hmem
    · rcases insertPPRef_members t pp acc c0 p hc0 hp0 with ⟨c1, hc1, hp1⟩ | heq
      · exact Or.inl ⟨c1, hc1, hp1⟩
      · exact Or.inr (heq ▸ List.mem_cons_self pp pps)
    · exact Or.inr (List.mem_cons_of_mem pp hmem)

/-- Decoding a merged entry recovers the value-level merge, provided the
cluster's members come from the enumerated store. -/
theorem mergeClusterRef_decode (store : List PainPoint) (c : List IdxPP)
    (h : ∀ p ∈ c, p ∈ store.enum) :
    decodeRef store (mergeClusterRef c) = mergeCluster (c.map (fun p => p.2)) := by
  match c with
  | [] => rfl
  | [p] =>
    have hp : store[p.1]? = some p.2 :=
      List.mem_enum_iff_getElem?.mp (h p (List.mem_singleton_self p))
    show store.getD p.1 {} = mergeCluster [p.2]
    rw [List.getD_eq_getElem?_getD, hp]
    rfl
  | base :: next :: rest => rfl

/-- Claim C9 as amended: `score_posts` mutates — it writes the four score
fields into each record of the caller's list in place and returns the
caller's own list, reordered in place into a permutation of the input
positions sorted by `relevance_score` in non-increasing order, so the
returned collection aliases the caller's records and is not freshly
constructed.  `_deduplicate_pain_points` writes to no caller record (the
candidate store comes back unchanged) and returns a new list whose
entries decode to exactly its value-level output, but that list shares
mutable records with the caller: every singleton cluster contributes the
caller's own record object (an alias, not a copy), and only clusters of
two or more members contribute a freshly constructed merged record. -/
theorem score_posts_and_dedup_sharing_amended (store : List PostRec)
    (w : ScoringWeights) (ti : Option TopicInfo)
    (ppstore : List PainPoint) (t : ℚ) :
    (score_posts_ref store w ti).1 =
      store.map (fun r => (r.1, some (score_post r.1 w ti)))
    ∧ ((score_posts_ref store w ti).2).Perm (List.range store.length)
    ∧ ((score_posts_ref store w ti).2).Sorted
        (fun i j => relKey ((score_posts_ref store w ti).1) j ≤
          relKey ((score_posts_ref store w ti).1) i)
    ∧ (deduplicate_ref ppstore t).1 = ppstore
    ∧ ((deduplicate_ref ppstore t).2).map (decodeRef ppstore) =
        deduplicate_pain_points ppstore t
    ∧ (∀ c ∈ clustersOfRef t ppstore.enum, ∀ p : IdxPP, c = [p] →
        mergeClusterRef c = Sum.inl p.1)
    ∧ (∀ c ∈ clustersOfRef t ppstore.enum, 2 ≤ c.length →
        (mergeClusterRef c).isRight = true) := by
  refine ⟨rfl, ?_, ?_, rfl, ?_, ?_, ?_⟩
  · have := foldl_insertDesc_perm
      (relKey (store.map (fun r => (r.1, some (score_post r.1 w ti)))))
      (List.range store.length) []
    simpa using this
  · exact foldl_insertDesc_sorted
      (relKey (store.map (fun r => (r.1, some (score_post r.1 w ti)))))
      (List.range store.length) [] List.sorted_nil
  · show ((clustersOfRef t ppstore.enum).map mergeClusterRef).map (decodeRef ppstore) =
      (clustersOf t ppstore).map mergeCluster
    rw [List.map_map]
    rw [show (decodeRef ppstore ∘ mergeClusterRef) =
      (fun c => decodeRef ppstore (mergeClusterRef c)) from rfl]
    have hmem : ∀ c ∈ clustersOfRef t ppstore.enum, ∀ p ∈ c, p ∈ ppstore.enum := by
      intro c hc p hp
      rcases clustersOfRef_members t ppstore.enum [] c hc p hp with ⟨c0, hc0, _⟩ | h
      · exact absurd hc0 (List.not_mem_nil c0)
      · exact h
    rw [List.map_congr_left
      (fun c hc => mergeClusterRef_decode ppstore c (hmem c hc))]
    rw [show (fun c => mergeCluster (List.map (fun p : IdxPP => p.2) c)) =
      (mergeCluster ∘ fun c : List IdxPP => c.map (fun p => p.2)) from rfl]
    rw [← List.map_map]
    rw [show clustersOfRef t ppstore.enum =
      ppstore.enum.foldl (fun cs pp => insertPPRef t pp cs) [] from rfl]
    rw [clustersOfRef_map t ppstore.enum []]
    rw [show List.map (fun p : IdxPP => p.2) ppstore.enum =
      List.map Prod.snd ppstore.enum from rfl]
    rw [List.enum_map_snd]
    rfl
  · intro c _ p hp
    subst hp
    rfl
  · intro c _ h2
    match c with
    | [] => exact absurd h2 (by decide)
    | [p] => exact absurd h2 (by simp)
    | a :: b :: r => rfl

/-- Witness data: the two dissimilar candidates cluster into singletons in
the address-carrying model. -/
theorem wclustersRef_single :
    clustersOfRef (1 / 2) ([wppA, wppB].enum) = [[(0, wppA)], [(1, wppB)]] := by
  have h2 : ¬ ((1 / 2 : ℚ) ≤ jaccard_similarity
      ((1, wppB) : IdxPP).2.description (repDescRef [(0, wppA)])) := by
    rw [show jaccard_similarity ((1, wppB) : IdxPP).2.description
      (repDescRef [(0, wppA)]) = 0 from jacc_gd_ab]
    norm_num
  show insertPPRef (1 / 2) (1, wppB) [[(0, wppA)]] = [[(0, wppA)], [(1, wppB)]]
  rw [show insertPPRef (1 / 2 : ℚ) (1, wppB) [[(0, wppA)]] =
    (if (1 / 2 : ℚ) ≤ jaccard_similarity ((1, wppB) : IdxPP).2.description
        (repDescRef [(0, wppA)])
      then ([(0, wppA)] ++ [(1, wppB)]) :: ([] : List (List IdxPP))
      else [(0, wppA)] :: insertPPRef (1 / 2) (1, wppB) []) from rfl]
  rw [if_neg h2]
  rfl

/-- Witness data: the two identical candidates form one two-member cluster
in the address-carrying model. -/
theorem wclustersRef_merged :
    clustersOfRef (1 / 2) ([wppB, wppC].enum) = [[(0, wppB), (1, wppC)]] := by
  have h2 : (1 / 2 : ℚ) ≤ jaccard_similarity
      ((1, wppC) : IdxPP).2.description (repDescRef [(0, wppB)]) := by
    rw [show jaccard_similarity ((1, wppC) : IdxPP).2.description
      (repDescRef [(0, wppB)]) = 1 from jacc_gd_gd]
    norm_num
  show insertPPRef (1 / 2) (1, wppC) [[(0, wppB)]] = [[(0, wppB), (1, wppC)]]
  rw [show insertPPRef (1 / 2 : ℚ) (1, wppC) [[(0, wppB)]] =
    (if (1 / 2 : ℚ) ≤ jaccard_similarity ((1, wppC) : IdxPP).2.description
        (repDescRef [(0, wppB)])
      then ([(0, wppB)] ++ [(1, wppC)]) :: ([] : List (List IdxPP))
      else [(0, wppB)] :: insertPPRef (1 / 2) (1, wppC) []) from rfl]
  rw [if_pos h2]
  rfl

/-- Hypothesis instance for the witness: the singleton cluster is among
the produced clusters. -/
theorem wit_c9_mem_single : [(0, wppA)] ∈ clustersOfRef (1 / 2) ([wppA, wppB].enum) := by
  rw [wclustersRef_single]
  exact List.mem_cons_self _ _

/-- Hypothesis instance for the witness: the two-member cluster is among
the produced clusters. -/
theorem wit_c9_mem_merged :
    [(0, wppB), (1, wppC)] ∈ clustersOfRef (1 / 2) ([wppB, wppC].enum) := by
  rw [wclustersRef_merged]
  exact List.mem_singleton_self _

/-- Witness for claim C9 as amended: on concrete candidate stores, a
singleton cluster is returned as the caller's record at address 0 (an
alias), a two-member cluster is returned as a fresh merged record, and
the candidate store comes back unchanged. -/
theorem score_posts_and_dedup_sharing_amended_witness :
    [(0, wppA)] ∈ clustersOfRef (1 / 2) ([wppA, wppB].enum)
    ∧ mergeClusterRef [(0, wppA)] = Sum.inl 0
    ∧ [(0, wppB), (1, wppC)] ∈ clustersOfRef (1 / 2) ([wppB, wppC].enum)
    ∧ 2 ≤ ([(0, wppB), (1, wppC)] : List IdxPP).length
    ∧ (mergeClusterRef [(0, wppB), (1, wppC)]).isRight = true
    ∧ (deduplicate_ref [wppA, wppB] (1 / 2)).1 = [wppA, wppB] :=
  ⟨wit_c9_mem_single,
   (score_posts_and_dedup_sharing_amended [] witWeights none
     [wppA, wppB] (1 / 2)).2.2.2.2.2.1 [(0, wppA)] wit_c9_mem_single (0, wppA) rfl,
   wit_c9_mem_merged,
   by decide,
   (score_posts_and_dedup_sharing_amended [] witWeights none
     [wppB, wppC] (1 / 2)).2.2.2.2.2.2 [(0, wppB), (1, wppC)] wit_c9_mem_merged (by decide),
   (score_posts_and_dedup_sharing_amended [] witWeights none
     [wppA, wppB] (1 / 2)).2.2.2.1⟩
